import Mathlib

set_option maxHeartbeats 1000000
set_option maxRecDepth 8192

/-! Verification of the AI code-review pipeline in `ci/run_ai_checks.py`.

The Python program is shallowly embedded over `List Char` (a Python `str`
is its sequence of characters).  External collaborators are oracles passed
in as parameters: the git subprocess results (`GitEnv`), the filesystem
candidates (`FsEnv`), and the model call plus JSON parse outcome
(`Except` error / parsed dict).  `textwrap.dedent`, `str.strip`,
`str.find`/`rfind`, slicing and `str.split` are modelled faithfully.
Console output is modelled as the list of printed lines; `json.dumps` of a
verdict is modelled as an output event carrying the dumped value, since
the exact rendering of the (out-of-scope) console formatting is not
load-bearing for any property below.
-/

/-! ## Python string primitives over `List Char` -/

/-- The characters of the class `[ \t]` used by `textwrap.dedent`. -/
def isTabSpace (c : Char) : Bool := c = ' ' || c = '\t'

/-- The ASCII whitespace set stripped by Python `str.strip()`. -/
def isPyWs (c : Char) : Bool :=
  c = ' ' || c = '\t' || c = '\n' || c = '\r' || c = '\x0b' || c = '\x0c'

/-- Python `s.lstrip()`. -/
def pyLstrip (s : List Char) : List Char := s.dropWhile isPyWs

/-- Python `s.rstrip()`. -/
def pyRstrip (s : List Char) : List Char := (s.reverse.dropWhile isPyWs).reverse

/-- Python `s.strip()`. -/
def pyStrip (s : List Char) : List Char := pyRstrip (pyLstrip s)

/-- Python `a or b` on strings: `a` when non-empty (truthy), else `b`. -/
def pyOr (a b : List Char) : List Char := if a = [] then b else a

/-- The lines of a text, splitting at each newline (`re` `MULTILINE` view:
a text always has at least one line, a trailing newline opens a final
empty line). -/
def splitNl : List Char → List (List Char)
  | [] => [[]]
  | c :: cs =>
    if c = '\n' then [] :: splitNl cs
    else
      match splitNl cs with
      | [] => [[c]]
      | h :: t => (c :: h) :: t

/-- Joining lines back with newlines (inverse of `splitNl`). -/
def joinNl : List (List Char) → List Char
  | [] => []
  | [l] => l
  | l :: l2 :: ls => l ++ '\n' :: joinNl (l2 :: ls)

/-- A line matched by `dedent`'s `^[ \t]+$`: non-empty and whitespace-only. -/
def wsOnly (l : List Char) : Bool := !l.isEmpty && l.all isTabSpace

/-- Step one of `dedent`: whitespace-only lines are normalised to empty lines. -/
def zapWsLines (ls : List (List Char)) : List (List Char) :=
  ls.map (fun l => if wsOnly l then [] else l)

/-- A line matched by `dedent`'s `(^[ \t]*)(?:[^ \t\n])`: it has a
character that is not a space or tab. -/
def hasContent (l : List Char) : Bool := l.any (fun c => !isTabSpace c)

/-- The `[ \t]*` indent of a line. -/
def indentOf (l : List Char) : List Char := l.takeWhile isTabSpace

/-- Longest common prefix of two character lists. -/
def lcp : List Char → List Char → List Char
  | a :: as, b :: bs => if a = b then a :: lcp as bs else []
  | _, _ => []

/-- One step of `dedent`'s margin computation over the indents. -/
def marginStep (m i : List Char) : List Char :=
  if m.isPrefixOf i then m else if i.isPrefixOf m then i else lcp m i

/-- The common margin `textwrap.dedent` computes over the content lines. -/
def marginOf (ls : List (List Char)) : List Char :=
  match (ls.filter hasContent).map indentOf with
  | [] => []
  | i :: is => is.foldl marginStep i

/-- One line under `dedent`'s final `re.sub(r'(?m)^' + margin, '', text)`:
when a margin was found, the margin is removed from each line that starts
with it. -/
def stripLine (m : List Char) (l : List Char) : List Char :=
  if m = [] then l else if m.isPrefixOf l then l.drop m.length else l

/-- Python `textwrap.dedent`. -/
def dedent (s : List Char) : List Char :=
  let ls := zapWsLines (splitNl s)
  let m := marginOf ls
  joinNl (if m = [] then ls else ls.map (stripLine m))

/-- The decimal rendering of a natural number (Python `str(n)` / f-string
interpolation of an `int`). -/
def digitChar (n : Nat) : Char := Char.ofNat (48 + n)

def natToDec (n : Nat) : List Char :=
  if _h : n < 10 then [digitChar n]
  else natToDec (n / 10) ++ [digitChar (n % 10)]
  termination_by n
  decreasing_by exact Nat.div_lt_self (by omega) (by omega)

/-- Python `s.find(c)` for a character known to occur (index of the first
occurrence; the length when absent, the caller guards membership). -/
def pyFind (c : Char) : List Char → Nat
  | [] => 0
  | x :: xs => if x = c then 0 else pyFind c xs + 1

/-- Python `s.rfind(c)`: the highest index holding `c` (meaningful when
`c` occurs; the caller guards membership). -/
def pyRfind (c : Char) (s : List Char) : Nat :=
  s.length - 1 - pyFind c s.reverse

/-- Python `s[i:j]`. -/
def pySlice (s : List Char) (i j : Nat) : List Char := (s.drop i).take (j - i)

/-- Python `s.split(sep)` for the three-backtick separator, and
`s.replace(sep, "")`, via `String.splitOn`. -/
def ticks : List Char := ['\x60', '\x60', '\x60']

def pySplitTicks (s : List Char) : List (List Char) :=
  ((String.mk s).splitOn (String.mk ticks)).map String.toList

def pyReplaceTicks (s : List Char) : List Char :=
  (pySplitTicks s).foldr (fun a b => a ++ b) []

/-! ## Data model

A parsed JSON value (what `json.loads` can return), and the dict form the
pipeline works with. -/

inductive PyVal where
  | str : List Char → PyVal
  | num : Int → PyVal
  | bool : Bool → PyVal
  | null : PyVal
  | list : List PyVal → PyVal
  | dict : List (List Char × PyVal) → PyVal

abbrev PyDict := List (List Char × PyVal)

/-- Python `d.get(k)` on a dict. -/
def dictGet (d : PyDict) (k : List Char) : Option PyVal :=
  match d with
  | [] => none
  | (k2, v) :: rest => if k2 = k then some v else dictGet rest k

/-- The run's configuration, built once from environment values
(`OLLAMA_MODEL`, `OLLAMA_URL`, `AI_REVIEW_MAX_DIFF_CHARS`,
`AI_REVIEW_TIMEOUT_SECONDS`, `AI_REVIEW_STRICT`). -/
structure Config where
  model : List Char
  url : List Char
  maxDiffChars : Nat
  requestTimeout : Nat
  strictMode : Bool

/-- The `(returncode, stdout, stderr)` triple of one subprocess call (`run_cmd`). -/
structure CmdResult where
  rc : Int
  out : List Char
  err : List Char

/-- The outcomes of the four git commands `get_git_diff` can issue:
`git rev-parse HEAD~1`, `git diff --unified=0 HEAD~1`,
`git diff --unified=0`, and `git status --short --branch`. -/
structure GitEnv where
  revParseHead1 : CmdResult
  diffHead1 : CmdResult
  diffWorking : CmdResult
  statusCmd : CmdResult

/-- The filesystem's answer for the four candidate document paths:
`some text` when the file exists. -/
structure FsEnv where
  ciAiChecks : Option (List Char)
  githubAiChecks : Option (List Char)
  rootProductSpec : Option (List Char)
  docsProductSpec : Option (List Char)

/-- One printed line of stdout.  `jsonDump v` stands for the line
`print(json.dumps(v, indent=2, ensure_ascii=False))`: the serialisation
always succeeds on the dicts the pipeline prints, and its exact text is
out-of-scope console formatting, so the event carries the value itself. -/
inductive OutLine where
  | text : List Char → OutLine
  | jsonDump : PyVal → OutLine

/-- The observable result of one pipeline run: the process exit code, the
stdout transcript, and the prompt sent to the model backend (`none` when
the backend was never invoked). -/
structure RunResult where
  exitCode : Nat
  output : List OutLine
  promptSent : Option (List Char)

/-! ## `get_git_diff` -/

def fallbackHeader : List Char :=
  ("# Fallback diff (no se pudo usar HEAD~1)\n").toList

def diagPart1 : List Char :=
  ("\n        No se pudo obtener un diff útil para revisar.\n\n        Último error de git:\n        ").toList

def diagPart2 : List Char :=
  ("\n\n        Salida de \x27git status --short --branch\x27:\n        ").toList

def diagPart3 : List Char :=
  ("\n        ").toList

/-- The step-3 diagnostic message: the dedented, stripped f-string built
from the last git error and the `git status` output. -/
def gitDiagnosticMsg (lastErr statusOut : List Char) : List Char :=
  pyStrip (dedent (diagPart1 ++ lastErr ++ diagPart2 ++ statusOut ++ diagPart3))

/-- Embedding of `get_git_diff`: commit diff if `HEAD~1` resolves and the diff command
succeeds with non-blank output; else the working-tree diff with a header
note; else the diagnostic message (built from `err or status_err` of the
working-tree diff / status commands, and the status output). -/
def get_git_diff (g : GitEnv) : List Char :=
  if g.revParseHead1.rc = 0 ∧ g.diffHead1.rc = 0 ∧ pyStrip g.diffHead1.out ≠ [] then
    g.diffHead1.out
  else if g.diffWorking.rc = 0 ∧ pyStrip g.diffWorking.out ≠ [] then
    fallbackHeader ++ g.diffWorking.out
  else
    gitDiagnosticMsg (pyOr g.diffWorking.err g.statusCmd.err) g.statusCmd.out

/-! ## Document loading -/

def missingDocMsg : List Char :=
  ("No se encontró ci/ai_checks.md ni .github/ai-checks.md. Se necesita uno de estos para saber las reglas y el formato JSON.").toList

def usandoAiChecksCi : List Char :=
  ("[DEBUG] Usando AI checks de: ci/ai_checks.md").toList

def usandoAiChecksGithub : List Char :=
  ("[DEBUG] Usando AI checks de: .github/ai-checks.md").toList

/-- Embedding of `load_ai_checks_document`: first candidate wins; raises
`FileNotFoundError(missingDocMsg)` when neither exists.  Returns the debug
lines it prints alongside the outcome. -/
def load_ai_checks_document (fs : FsEnv) : List OutLine × Except (List Char) (List Char) :=
  match fs.ciAiChecks with
  | some t => ([OutLine.text usandoAiChecksCi], Except.ok t)
  | none =>
    match fs.githubAiChecks with
    | some t => ([OutLine.text usandoAiChecksGithub], Except.ok t)
    | none => ([], Except.error missingDocMsg)

def usandoSpecRoot : List Char :=
  ("[DEBUG] Usando product spec de: product_spec.md").toList

def usandoSpecDocs : List Char :=
  ("[DEBUG] Usando product spec de: docs/product_spec.md").toList

def sinSpecMsg : List Char :=
  ("[DEBUG] No se encontró product_spec.md, se continúa sin contexto extra.").toList

/-- Embedding of `load_product_spec`: first candidate wins; absence is tolerated and
yields the empty text. -/
def load_product_spec (fs : FsEnv) : List OutLine × List Char :=
  match fs.rootProductSpec with
  | some t => ([OutLine.text usandoSpecRoot], t)
  | none =>
    match fs.docsProductSpec with
    | some t => ([OutLine.text usandoSpecDocs], t)
    | none => ([OutLine.text sinSpecMsg], [])

/-! ## Prompt construction (`build_review_prompt`) -/

/-- The body of the truncation notice appended to an over-long diff
(the f-string `[Diff truncado a {MAX_DIFF_CHARS} caracteres para
ajustarse al contexto.]`). -/
def truncNoticeBody (m : Nat) : List Char :=
  ("[Diff truncado a ").toList ++ natToDec m ++ (" caracteres para ajustarse al contexto.]").toList

/-- The full appended notice, with its two leading newlines. -/
def truncNotice (m : Nat) : List Char := '\n' :: '\n' :: truncNoticeBody m

/-- The `trimmed_diff` local of `build_review_prompt`. -/
def trimmedDiff (maxDiffChars : Nat) (diff : List Char) : List Char :=
  if diff.length > maxDiffChars then diff.take maxDiffChars ++ truncNotice maxDiffChars
  else diff

def promptPart1 : List Char :=
  ("\n    You are an automated code reviewer integrated into a CI pipeline.\n\n    You MUST strictly follow the instructions and JSON output format defined\n    in the AI checks document.\n\n    --- PROJECT SPECIFICATION (CONTEXT) ---\n    ").toList

def promptPart2 : List Char :=
  ("\n    --- END PROJECT SPECIFICATION ---\n\n    --- AI CHECKS DOCUMENT (RULES + REQUIRED JSON SCHEMA) ---\n    ").toList

def promptPart3 : List Char :=
  ("\n    --- END AI CHECKS DOCUMENT ---\n\n    --- DIFF TO REVIEW ---\n    ").toList

def promptPart4 : List Char :=
  ("\n    --- END DIFF ---\n\n    VERY IMPORTANT INSTRUCTIONS:\n\n    - Your output MUST be VALID RAW JSON, with NO markdown formatting.\n    - DO NOT wrap your response in triple backticks (\x60\x60\x60json or \x60\x60\x60).\n    - DO NOT add explanations before or after the JSON.\n    - DO NOT include comments in the JSON.\n    - The JSON MUST be directly parseable by Python\x27s json.loads().\n    - The JSON MUST follow the exact schema described in the AI checks document\n      (including overall_status, checks, notes, etc.).\n    - Base your evaluation ONLY on:\n        - The diff provided\n        - The AI checks document\n        - The project specification\n    - Answer explanations in Spanish where appropriate, but keep code identifiers,\n      function names and technical terms in English.\n    ").toList

/-- Embedding of `build_review_prompt`: the dedented, stripped f-string embedding the
project spec, the AI checks document and the (possibly truncated) diff. -/
def build_review_prompt (maxDiffChars : Nat) (ai_checks_doc product_spec diff : List Char) : List Char :=
  pyStrip (dedent (promptPart1 ++ product_spec ++ promptPart2 ++ ai_checks_doc ++ promptPart3 ++ trimmedDiff maxDiffChars diff ++ promptPart4))

/-! ## Response cleanup (`clean_and_parse_json`) -/

/-- The sanitisation steps of `clean_and_parse_json` before `json.loads`:
strip, unwrap a leading fenced block, cut to the outermost braces. -/
def cleanRaw (response : List Char) : List Char :=
  let raw := pyStrip response
  let raw :=
    if ticks.isPrefixOf raw then
      match pySplitTicks raw with
      | _ :: p1 :: _ => pyStrip p1
      | _ => pyStrip (pyReplaceTicks raw)
    else raw
  if '\x7b' ∈ raw ∧ '\x7d' ∈ raw then
    pySlice raw (pyFind '\x7b' raw) (pyRfind '\x7d' raw + 1)
  else raw

/-- Embedding of `clean_and_parse_json`, parameterised by the external `json.loads`
(out-of-scope library code): sanitise, then parse. -/
def clean_and_parse_json (loads : List Char → Except (List Char) PyVal)
    (response : List Char) : Except (List Char) PyVal :=
  loads (cleanRaw response)

/-! ## Fallback verdict and the verdict policy (`main`) -/

def osKey : List Char := ("overall_status").toList
def checksKey : List Char := ("checks").toList
def notesKey : List Char := ("notes").toList
def passLit : List Char := ("pass").toList
def failLit : List Char := ("fail").toList
def unknownLit : List Char := ("unknown").toList

def fallbackNote1 : List Char :=
  ("AI reviewer no pudo ejecutarse correctamente.").toList

def detallePrefix : List Char := ("Detalle técnico: ").toList

/-- Embedding of `build_fallback_result`: the minimal valid verdict used when the AI
could not run. -/
def build_fallback_result (error_message : List Char) : PyDict :=
  [ (osKey, PyVal.str unknownLit),
    (checksKey, PyVal.list []),
    (notesKey, PyVal.list [PyVal.str fallbackNote1, PyVal.str (detallePrefix ++ error_message)]) ]

/-- The no-changes verdict emitted for an empty diff. -/
def noChangesResult : PyDict :=
  [ (osKey, PyVal.str passLit),
    (checksKey, PyVal.list []),
    (notesKey, PyVal.list [PyVal.str (("No se encontraron cambios para revisar.").toList)]) ]

/-- The test `parsed.get("overall_status") == "fail"` of `main`
(Python `==` between a non-string and `"fail"` is `False`). -/
def statusIsFail (parsed : PyDict) : Bool :=
  match dictGet parsed osKey with
  | some (PyVal.str s) => s = failLit
  | _ => false

def jsonStartMarker : List Char := ("=== AI REVIEW JSON START ===").toList
def jsonEndMarker : List Char := ("=== AI REVIEW JSON END ===").toList

def noChangesLine : List Char :=
  ("No se encontraron cambios para revisar (diff vacío).").toList

def debugLenLine (diffLen maxDiffChars : Nat) : List Char :=
  ("[DEBUG] Longitud del diff: ").toList ++ natToDec diffLen ++ (" caracteres (se recorta a ").toList ++ natToDec maxDiffChars ++ (")").toList

def modelErrLine (exc : List Char) : List Char :=
  ("❌ Error al llamar a la IA o parsear JSON: ").toList ++ exc

def failStatusLine : List Char :=
  ("❌ overall_status = fail → marcando revisión como FALLIDA (exit 1).").toList

def okStatusLine : List Char :=
  ("✅ overall_status != fail → revisión OK (exit 0).").toList

/-- The part of `main` from line 317 on, once the documents are loaded and
the diff is acquired, restricted to the model outcomes on which the
program returns normally: `modelOutcome` is the parsed top-level dict, or
the caught exception's message (`requests.Timeout`,
`requests.RequestException` or `json.JSONDecodeError`).  A successful
parse of a non-dict JSON value makes the real program die on an uncaught
`AttributeError` at line 345; that path is covered by `mainWithDiffTotal`
below, of which this function is the normally-returning restriction
(lemmas `mainWithDiffTotal_caughtError`, `mainWithDiffTotal_parsedDict`). -/
def mainWithDiff (cfg : Config) (ai_checks_doc product_spec diff : List Char)
    (modelOutcome : Except (List Char) PyDict) : RunResult :=
  if pyStrip diff = [] then
    { exitCode := 0,
      output := [OutLine.text noChangesLine, OutLine.text jsonStartMarker,
                 OutLine.jsonDump (PyVal.dict noChangesResult), OutLine.text jsonEndMarker],
      promptSent := none }
  else
    let prompt := build_review_prompt cfg.maxDiffChars ai_checks_doc product_spec diff
    match modelOutcome with
    | Except.error exc =>
      { exitCode := if cfg.strictMode then 1 else 0,
        output := [OutLine.text (debugLenLine diff.length cfg.maxDiffChars),
                   OutLine.text (modelErrLine exc), OutLine.text jsonStartMarker,
                   OutLine.jsonDump (PyVal.dict (build_fallback_result exc)),
                   OutLine.text jsonEndMarker],
        promptSent := some prompt }
    | Except.ok parsed =>
      { exitCode := if statusIsFail parsed then 1 else 0,
        output := [OutLine.text (debugLenLine diff.length cfg.maxDiffChars),
                   OutLine.text (if statusIsFail parsed then failStatusLine else okStatusLine),
                   OutLine.text jsonStartMarker, OutLine.jsonDump (PyVal.dict parsed),
                   OutLine.text jsonEndMarker],
        promptSent := some prompt }

def headerLines (cfg : Config) : List OutLine :=
  [ OutLine.text (("[DEBUG] Modelo cargado de .env: ").toList ++ cfg.model),
    OutLine.text (("[DEBUG] URL de Ollama: ").toList ++ cfg.url),
    OutLine.text (("=== AI Reviewer (Ollama) ===").toList),
    OutLine.text (("Modelo: ").toList ++ cfg.model),
    OutLine.text (("Endpoint: ").toList ++ cfg.url) ]

/-- The `main` function over the normally-returning model outcomes: load
the rules document (missing ⇒ degraded verdict, exit 1 only in strict
mode), load the optional project spec, acquire the diff, then run the
rest of the pipeline.  The crash path for a successfully parsed non-dict
response is covered by `mainRunTotal` below. -/
def mainRun (cfg : Config) (fs : FsEnv) (git : GitEnv)
    (modelOutcome : Except (List Char) PyDict) : RunResult :=
  match load_ai_checks_document fs with
  | (docPrints, Except.error e) =>
    { exitCode := if cfg.strictMode then 1 else 0,
      output := headerLines cfg ++ docPrints ++
        [OutLine.text (("❌ ").toList ++ e), OutLine.text jsonStartMarker,
         OutLine.jsonDump (PyVal.dict (build_fallback_result e)), OutLine.text jsonEndMarker],
      promptSent := none }
  | (docPrints, Except.ok ai_checks_doc) =>
    let sp := load_product_spec fs
    let diff := get_git_diff git
    let r := mainWithDiff cfg ai_checks_doc sp.2 diff modelOutcome
    { r with output := headerLines cfg ++ docPrints ++ sp.1 ++ r.output }

/-- The full set of model-stage outcomes of
`clean_and_parse_json(call_ollama(prompt))`: one of the exceptions that
`main` catches at line 340 (`requests.Timeout`, `requests.RequestException`,
`json.JSONDecodeError`), carried as its message, or a successful parse.
`json.loads` returns whatever JSON value the cleaned text denotes, not
necessarily an object: a response such as `[]` or `null` has no fences and
no braces, passes `clean_and_parse_json` unchanged and parses to a
non-dict value, so `parsedValue` carries an arbitrary `PyVal`. -/
inductive ModelOutcome where
  | caughtError : List Char → ModelOutcome
  | parsedValue : PyVal → ModelOutcome

/-- How a run of the process ends: a normal return, or death by an
uncaught exception, carrying the stdout lines printed before the crash
(the traceback itself goes to stderr, and the interpreter's exit status
for an uncaught exception is 1). -/
inductive RunOutcome where
  | exits : RunResult → RunOutcome
  | crashes : List OutLine → RunOutcome

/-- Python attribute dispatch for `parsed.get(...)` at line 345: the call
is defined when `parsed` is a dict and raises `AttributeError` (`none`)
on every other JSON value. -/
def asDict : PyVal → Option PyDict
  | PyVal.dict d => some d
  | _ => none

/-- Total model of `main` from line 317 on, over the full outcome type.
Where `mainWithDiff` covers the outcomes on which the program returns
normally, this also covers a successfully parsed non-dict value: line 345
evaluates `parsed.get("overall_status")`, which raises `AttributeError`
on a non-dict — an exception outside the caught tuple of line 340, and
raised in the `else` block anyway — so the process dies right after the
diff-length debug line, before the JSON markers of lines 353-355 are
printed. -/
def mainWithDiffTotal (cfg : Config) (ai_checks_doc product_spec diff : List Char)
    (modelOutcome : ModelOutcome) : RunOutcome :=
  if pyStrip diff = [] then
    RunOutcome.exits
      { exitCode := 0,
        output := [OutLine.text noChangesLine, OutLine.text jsonStartMarker,
                   OutLine.jsonDump (PyVal.dict noChangesResult), OutLine.text jsonEndMarker],
        promptSent := none }
  else
    let prompt := build_review_prompt cfg.maxDiffChars ai_checks_doc product_spec diff
    match modelOutcome with
    | ModelOutcome.caughtError exc =>
      RunOutcome.exits
        { exitCode := if cfg.strictMode then 1 else 0,
          output := [OutLine.text (debugLenLine diff.length cfg.maxDiffChars),
                     OutLine.text (modelErrLine exc), OutLine.text jsonStartMarker,
                     OutLine.jsonDump (PyVal.dict (build_fallback_result exc)),
                     OutLine.text jsonEndMarker],
          promptSent := some prompt }
    | ModelOutcome.parsedValue v =>
      match asDict v with
      | some parsed =>
        RunOutcome.exits
          { exitCode := if statusIsFail parsed then 1 else 0,
            output := [OutLine.text (debugLenLine diff.length cfg.maxDiffChars),
                       OutLine.text (if statusIsFail parsed then failStatusLine else okStatusLine),
                       OutLine.text jsonStartMarker, OutLine.jsonDump (PyVal.dict parsed),
                       OutLine.text jsonEndMarker],
            promptSent := some prompt }
      | none =>
        RunOutcome.crashes [OutLine.text (debugLenLine diff.length cfg.maxDiffChars)]

/-- Total model of `main`: as `mainRun`, over the full outcome type, so
the crash path of a successfully parsed non-dict response is
representable. -/
def mainRunTotal (cfg : Config) (fs : FsEnv) (git : GitEnv)
    (modelOutcome : ModelOutcome) : RunOutcome :=
  match load_ai_checks_document fs with
  | (docPrints, Except.error e) =>
    RunOutcome.exits
      { exitCode := if cfg.strictMode then 1 else 0,
        output := headerLines cfg ++ docPrints ++
          [OutLine.text (("❌ ").toList ++ e), OutLine.text jsonStartMarker,
           OutLine.jsonDump (PyVal.dict (build_fallback_result e)), OutLine.text jsonEndMarker],
        promptSent := none }
  | (docPrints, Except.ok ai_checks_doc) =>
    let sp := load_product_spec fs
    let diff := get_git_diff git
    match mainWithDiffTotal cfg ai_checks_doc sp.2 diff modelOutcome with
    | RunOutcome.exits r =>
      RunOutcome.exits { r with output := headerLines cfg ++ docPrints ++ sp.1 ++ r.output }
    | RunOutcome.crashes out =>
      RunOutcome.crashes (headerLines cfg ++ docPrints ++ sp.1 ++ out)

/-! ## Predicates used by the claim statements -/

/-- Eight spaces: the indentation of the diagnostic f-string's own lines. -/
def sp8 : List Char := ("        ").toList

/-- Condition under which `get_git_diff` returns the commit-to-commit
diff: `HEAD~1` resolves and `git diff HEAD~1` succeeds with non-blank
output. -/
def commitDiffAvailable (g : GitEnv) : Prop :=
  g.revParseHead1.rc = 0 ∧ g.diffHead1.rc = 0 ∧ pyStrip g.diffHead1.out ≠ []

/-- Condition under which the working-tree diff is used: the command
succeeds with non-blank output. -/
def workingDiffAvailable (g : GitEnv) : Prop :=
  g.diffWorking.rc = 0 ∧ pyStrip g.diffWorking.out ≠ []

instance (g : GitEnv) : Decidable (commitDiffAvailable g) := by
  unfold commitDiffAvailable; infer_instance

instance (g : GitEnv) : Decidable (workingDiffAvailable g) := by
  unfold workingDiffAvailable; infer_instance

/-- A line that is empty or starts at column zero with a non-space,
non-tab character. -/
def colZeroLine (l : List Char) : Bool :=
  match l with
  | [] => true
  | c :: _ => !isTabSpace c

/-- A text all of whose lines are empty or start with a non-whitespace
column-zero character (ordinary tool output such as `fatal: ...`). -/
def colZeroLines (t : List Char) : Bool := (splitNl t).all colZeroLine

/-! ## Lemmas: line splitting and joining -/

theorem splitNl_nil : splitNl [] = [[]] := rfl

theorem splitNl_cons_nl (s : List Char) : splitNl ('\n' :: s) = [] :: splitNl s := by
  simp [splitNl]

theorem splitNl_ne_nil (s : List Char) : splitNl s ≠ [] := by
  cases s with
  | nil => simp [splitNl]
  | cons c cs =>
    simp only [splitNl]
    split
    · simp
    · split <;> simp

theorem splitNl_cons_of_ne (c : Char) (s : List Char) (hc : c ≠ '\n')
    (h : List Char) (t : List (List Char)) (ht : splitNl s = h :: t) :
    splitNl (c :: s) = (c :: h) :: t := by
  simp only [splitNl, if_neg hc, ht]

theorem splitNl_append (a b : List Char) :
    splitNl (a ++ '\n' :: b) = splitNl a ++ splitNl b := by
  induction a with
  | nil => simp [splitNl_cons_nl, splitNl_nil]
  | cons c cs ih =>
    by_cases hc : c = '\n'
    · subst hc
      rw [List.cons_append, splitNl_cons_nl, splitNl_cons_nl, ih, List.cons_append]
    · obtain ⟨h, t, ht⟩ := List.exists_cons_of_ne_nil (splitNl_ne_nil cs)
      have ht2 : splitNl (cs ++ '\n' :: b) = h :: (t ++ splitNl b) := by
        rw [ih, ht, List.cons_append]
      rw [List.cons_append, splitNl_cons_of_ne c _ hc _ _ ht2,
        splitNl_cons_of_ne c _ hc _ _ ht, List.cons_append]

theorem splitNl_noNl (l : List Char) (h : '\n' ∉ l) : splitNl l = [l] := by
  induction l with
  | nil => simp [splitNl]
  | cons c cs ih =>
    have hc : c ≠ '\n' := fun hc => h (hc ▸ List.mem_cons_self c cs)
    have hcs : '\n' ∉ cs := fun hm => h (List.mem_cons_of_mem c hm)
    exact splitNl_cons_of_ne c cs hc cs [] (ih hcs)

theorem splitNl_prepend (u v : List Char) (hu : '\n' ∉ u) (h : List Char)
    (t : List (List Char)) (ht : splitNl v = h :: t) :
    splitNl (u ++ v) = (u ++ h) :: t := by
  induction u with
  | nil => simpa using ht
  | cons c cs ih =>
    have hc : c ≠ '\n' := fun hc => hu (hc ▸ List.mem_cons_self c cs)
    have hcs : '\n' ∉ cs := fun hm => hu (List.mem_cons_of_mem c hm)
    rw [List.cons_append, splitNl_cons_of_ne c _ hc _ _ (ih hcs), List.cons_append]

theorem joinNl_cons_cons (l l2 : List Char) (ls : List (List Char)) :
    joinNl (l :: l2 :: ls) = l ++ '\n' :: joinNl (l2 :: ls) := rfl

theorem joinNl_splitNl (s : List Char) : joinNl (splitNl s) = s := by
  induction s with
  | nil => simp [splitNl, joinNl]
  | cons c cs ih =>
    obtain ⟨h, t, ht⟩ := List.exists_cons_of_ne_nil (splitNl_ne_nil cs)
    by_cases hc : c = '\n'
    · subst hc
      rw [splitNl_cons_nl, ht, joinNl_cons_cons, ← ht, ih]
      simp
    · rw [splitNl_cons_of_ne c cs hc _ _ ht]
      rw [ht] at ih
      cases t with
      | nil => simpa [joinNl] using congrArg (c :: ·) ih
      | cons t1 ts =>
        rw [joinNl_cons_cons]
        rw [joinNl_cons_cons] at ih
        simpa using congrArg (c :: ·) ih

theorem joinNl_append (xs ys : List (List Char)) (hx : xs ≠ []) (hy : ys ≠ []) :
    joinNl (xs ++ ys) = joinNl xs ++ '\n' :: joinNl ys := by
  induction xs with
  | nil => exact absurd rfl hx
  | cons a as ih =>
    cases as with
    | nil =>
      obtain ⟨y, ys', hys⟩ := List.exists_cons_of_ne_nil hy
      subst hys
      simp [joinNl_cons_cons, joinNl]
    | cons a2 as2 =>
      have h2 : (a2 :: as2 : List (List Char)) ≠ [] := by simp
      have step : (a :: a2 :: as2) ++ ys = a :: ((a2 :: as2) ++ ys) := by simp
      rw [step]
      obtain ⟨z, zs, hz⟩ : ∃ z zs, (a2 :: as2) ++ ys = z :: zs := ⟨a2, as2 ++ ys, by simp⟩
      rw [hz, joinNl_cons_cons, ← hz, ih h2, joinNl_cons_cons]
      simp

theorem joinNl_cons_append (u h : List Char) (t : List (List Char)) :
    joinNl ((u ++ h) :: t) = u ++ joinNl (h :: t) := by
  cases t with
  | nil => simp [joinNl]
  | cons t1 ts => rw [joinNl_cons_cons, joinNl_cons_cons]; simp

theorem mem_joinNl (c : Char) (l : List Char) (ls : List (List Char))
    (hc : c ∈ l) (hl : l ∈ ls) : c ∈ joinNl ls := by
  induction ls with
  | nil => simp at hl
  | cons a as ih =>
    rcases List.mem_cons.mp hl with h | h
    · subst h
      cases as with
      | nil => simpa [joinNl] using hc
      | cons a2 as2 => rw [joinNl_cons_cons]; exact List.mem_append_left _ hc
    · cases as with
      | nil => simp at h
      | cons a2 as2 =>
        rw [joinNl_cons_cons]
        exact List.mem_append_right _ (List.mem_cons_of_mem _ (ih h))

/-! ## Lemmas: stripping -/

theorem dropWhile_append_keep (p : Char → Bool) (u x : List Char)
    (hu : ∃ c ∈ u, p c = false) :
    ∃ u2, (u ++ x).dropWhile p = u2 ++ x ∧ ∃ c ∈ u2, p c = false := by
  induction u with
  | nil => simp at hu
  | cons a as ih =>
    by_cases ha : p a = true
    · obtain ⟨c, hc, hpc⟩ := hu
      rcases List.mem_cons.mp hc with rfl | hc2
      · rw [ha] at hpc; cases hpc
      · obtain ⟨u2, h1, h2⟩ := ih ⟨c, hc2, hpc⟩
        refine ⟨u2, ?_, h2⟩
        rw [List.cons_append, List.dropWhile_cons_of_pos ha, h1]
    · have ha' : p a = false := Bool.eq_false_iff.mpr ha
      exact ⟨a :: as, by rw [List.cons_append, List.dropWhile_cons_of_neg (by simp [ha'])],
        ⟨a, by simp, ha'⟩⟩

theorem dropWhile_append_all (p : Char → Bool) (u x : List Char)
    (hu : ∀ c ∈ u, p c = true) :
    (u ++ x).dropWhile p = x.dropWhile p := by
  induction u with
  | nil => simp
  | cons a as ih =>
    rw [List.cons_append, List.dropWhile_cons_of_pos (hu a (by simp))]
    exact ih (fun c hc => hu c (by simp [hc]))

theorem dropWhile_append_stop (p : Char → Bool) (w x : List Char) (c : Char)
    (r : List Char) (hx : x = c :: r) (hc : p c = false) :
    ∃ w2, (w ++ x).dropWhile p = w2 ++ x := by
  by_cases hall : ∀ b ∈ w, p b = true
  · refine ⟨[], ?_⟩
    rw [dropWhile_append_all p w x hall, hx, List.dropWhile_cons_of_neg (by simp [hc]),
      List.nil_append]
  · push_neg at hall
    obtain ⟨b, hb, hpb⟩ := hall
    obtain ⟨u2, h1, _⟩ := dropWhile_append_keep p w x ⟨b, hb, Bool.eq_false_iff.mpr hpb⟩
    exact ⟨u2, h1⟩

theorem dropWhile_head_false (p : Char → Bool) (s : List Char) (c : Char)
    (r : List Char) (h : s.dropWhile p = c :: r) : p c = false := by
  induction s with
  | nil => simp at h
  | cons a as ih =>
    by_cases ha : p a = true
    · rw [List.dropWhile_cons_of_pos ha] at h; exact ih h
    · rw [List.dropWhile_cons_of_neg ha] at h
      cases h
      exact Bool.eq_false_iff.mpr ha

theorem mem_takeWhile_ws (p : Char → Bool) (s : List Char) (c : Char)
    (h : c ∈ s.takeWhile p) : p c = true := by
  induction s with
  | nil => simp at h
  | cons a as ih =>
    by_cases ha : p a = true
    · rw [List.takeWhile_cons_of_pos ha] at h
      rcases List.mem_cons.mp h with rfl | h2
      · exact ha
      · exact ih h2
    · rw [List.takeWhile_cons_of_neg ha] at h; simp at h

theorem pyLstrip_decomp (s : List Char) :
    ∃ p, s = p ++ pyLstrip s ∧ ∀ c ∈ p, isPyWs c = true :=
  ⟨s.takeWhile isPyWs, (List.takeWhile_append_dropWhile isPyWs s).symm,
    fun c hc => mem_takeWhile_ws isPyWs s c hc⟩

theorem pyRstrip_decomp (x : List Char) :
    ∃ q, x = pyRstrip x ++ q ∧ ∀ c ∈ q, isPyWs c = true := by
  refine ⟨(x.reverse.takeWhile isPyWs).reverse, ?_, ?_⟩
  · have h2 := congrArg List.reverse (List.takeWhile_append_dropWhile isPyWs x.reverse)
    rw [List.reverse_append, List.reverse_reverse] at h2
    exact h2.symm
  · intro c hc
    exact mem_takeWhile_ws isPyWs x.reverse c (List.mem_reverse.mp hc)

theorem pyStrip_decomp (s : List Char) :
    ∃ p q, s = p ++ pyStrip s ++ q ∧ (∀ c ∈ p, isPyWs c = true) ∧
      (∀ c ∈ q, isPyWs c = true) := by
  obtain ⟨p, hp, hpw⟩ := pyLstrip_decomp s
  obtain ⟨q, hq, hqw⟩ := pyRstrip_decomp (pyLstrip s)
  exact ⟨p, q, by rw [List.append_assoc]; rw [pyStrip]; rw [← hq]; exact hp, hpw, hqw⟩

theorem pyStrip_head_nonws (s : List Char) (c : Char) (r : List Char)
    (h : pyStrip s = c :: r) : isPyWs c = false := by
  obtain ⟨q, hq, _⟩ := pyRstrip_decomp (pyLstrip s)
  rw [pyStrip] at h
  rw [h] at hq
  refine dropWhile_head_false isPyWs s c (r ++ q) ?_
  have h3 : pyLstrip s = c :: (r ++ q) := by rw [hq]; simp
  exact h3

theorem pyStrip_last_nonws (s : List Char) (c : Char) (r : List Char)
    (h : (pyStrip s).reverse = c :: r) : isPyWs c = false := by
  rw [pyStrip, pyRstrip, List.reverse_reverse] at h
  exact dropWhile_head_false isPyWs (pyLstrip s).reverse c r h

theorem pyStrip_nil_of_ws (s : List Char) (h : ∀ c ∈ s, isPyWs c = true) :
    pyStrip s = [] := by
  have h1 : pyLstrip s = [] := by
    rw [pyLstrip, List.dropWhile_eq_nil_iff]
    intro x hx; simpa using h x hx
  rw [pyStrip, h1, pyRstrip]
  simp

theorem exists_nonws_of_pyStrip_ne_nil (s : List Char) (h : pyStrip s ≠ []) :
    ∃ c ∈ s, isPyWs c = false := by
  by_contra hc
  push_neg at hc
  exact h (pyStrip_nil_of_ws s (fun c hcs => by
    have := hc c hcs
    cases hb : isPyWs c with
    | false => exact absurd hb this
    | true => rfl))

theorem mem_pyStrip_of_nonws (s : List Char) (c : Char) (hc : c ∈ s)
    (hw : isPyWs c = false) : c ∈ pyStrip s := by
  obtain ⟨p, q, hs, hpw, hqw⟩ := pyStrip_decomp s
  rw [hs] at hc
  rcases List.mem_append.mp hc with h1 | h2
  · rcases List.mem_append.mp h1 with h3 | h4
    · rw [hpw c h3] at hw; cases hw
    · exact h4
  · rw [hqw c h2] at hw; cases hw

theorem pyStrip_infix_of (u a v : List Char) (hu : ∃ c ∈ u, isPyWs c = false) :
    pyStrip a <:+: pyStrip (u ++ a ++ v) := by
  obtain ⟨p, q, ha, hpw, hqw⟩ := pyStrip_decomp a
  by_cases hnil : pyStrip a = []
  · rw [hnil]; exact List.nil_infix
  obtain ⟨c0, r0, hc0r⟩ := List.exists_cons_of_ne_nil hnil
  have hrevne : (pyStrip a).reverse ≠ [] := by
    rw [ne_eq, List.reverse_eq_nil_iff]; exact hnil
  obtain ⟨c1, r1, hc1r⟩ := List.exists_cons_of_ne_nil hrevne
  have hc1 : isPyWs c1 = false := pyStrip_last_nonws a c1 r1 hc1r
  have hall : u ++ a ++ v = (u ++ p) ++ (pyStrip a ++ (q ++ v)) := by
    conv_lhs => rw [ha]
    simp [List.append_assoc]
  obtain ⟨u2, h1, hu2⟩ :=
    dropWhile_append_keep isPyWs (u ++ p) (pyStrip a ++ (q ++ v))
      (by obtain ⟨c, hcm, hcw⟩ := hu; exact ⟨c, List.mem_append_left p hcm, hcw⟩)
  have hl : pyLstrip (u ++ a ++ v) = u2 ++ (pyStrip a ++ (q ++ v)) := by
    show (u ++ a ++ v).dropWhile isPyWs = u2 ++ (pyStrip a ++ (q ++ v))
    rw [hall]; exact h1
  have hrevy : (u2 ++ (pyStrip a ++ (q ++ v))).reverse =
      (q ++ v).reverse ++ ((pyStrip a).reverse ++ u2.reverse) := by
    simp [List.append_assoc]
  obtain ⟨w2, h2⟩ := dropWhile_append_stop isPyWs ((q ++ v).reverse)
    ((pyStrip a).reverse ++ u2.reverse) c1 (r1 ++ u2.reverse)
    (by rw [hc1r]; simp) hc1
  refine ⟨u2, w2.reverse, ?_⟩
  show u2 ++ pyStrip a ++ w2.reverse =
    ((pyLstrip (u ++ a ++ v)).reverse.dropWhile isPyWs).reverse
  rw [hl, hrevy, h2]
  rw [List.reverse_append, List.reverse_append, List.reverse_reverse, List.reverse_reverse]

/-! ## Lemmas: the dedent margin -/

theorem lcp_prefix_left (a : List Char) : ∀ b, lcp a b <+: a := by
  induction a with
  | nil => intro b; cases b <;> simp [lcp]
  | cons x xs ih =>
    intro b
    cases b with
    | nil => simp [lcp]
    | cons y ys =>
      by_cases h : x = y
      · simp only [lcp, if_pos h]
        exact List.cons_prefix_cons.mpr ⟨rfl, ih ys⟩
      · simp only [lcp, if_neg h]
        exact List.nil_prefix

theorem lcp_prefix_right (a : List Char) : ∀ b, lcp a b <+: b := by
  induction a with
  | nil => intro b; cases b <;> simp [lcp]
  | cons x xs ih =>
    intro b
    cases b with
    | nil => simp [lcp]
    | cons y ys =>
      by_cases h : x = y
      · simp only [lcp, if_pos h]
        rw [h]
        exact List.cons_prefix_cons.mpr ⟨rfl, ih ys⟩
      · simp only [lcp, if_neg h]
        exact List.nil_prefix

theorem marginStep_prefix_left (m i : List Char) : marginStep m i <+: m := by
  rw [marginStep]
  split
  · exact List.prefix_refl m
  · split
    · rename_i h
      exact List.isPrefixOf_iff_prefix.mp h
    · exact lcp_prefix_left m i

theorem marginStep_prefix_right (m i : List Char) : marginStep m i <+: i := by
  rw [marginStep]
  split
  · rename_i h
    exact List.isPrefixOf_iff_prefix.mp h
  · split
    · exact List.prefix_refl i
    · exact lcp_prefix_right m i

theorem foldl_marginStep_prefix_acc (is : List (List Char)) (m : List Char) :
    is.foldl marginStep m <+: m := by
  induction is generalizing m with
  | nil => exact List.prefix_refl m
  | cons i js ih =>
    rw [List.foldl_cons]
    exact (ih (marginStep m i)).trans (marginStep_prefix_left m i)

theorem foldl_marginStep_prefix_mem (is : List (List Char)) (i : List Char)
    (hi : i ∈ is) : ∀ m, is.foldl marginStep m <+: i := by
  induction is with
  | nil => simp at hi
  | cons j js ih =>
    intro m
    rw [List.foldl_cons]
    rcases List.mem_cons.mp hi with rfl | h2
    · exact (foldl_marginStep_prefix_acc js (marginStep m i)).trans
        (marginStep_prefix_right m i)
    · exact ih h2 (marginStep m j)

theorem marginOf_prefix (ls : List (List Char)) (l : List Char)
    (hl : l ∈ ls) (hc : hasContent l = true) : marginOf ls <+: indentOf l := by
  have hmem : indentOf l ∈ (ls.filter hasContent).map indentOf :=
    List.mem_map_of_mem _ (List.mem_filter.mpr ⟨hl, hc⟩)
  rcases h : (ls.filter hasContent).map indentOf with _ | ⟨i, is⟩
  · rw [h] at hmem; simp at hmem
  · have hm : marginOf ls = is.foldl marginStep i := by rw [marginOf, h]
    rw [hm]
    rw [h] at hmem
    rcases List.mem_cons.mp hmem with heq | h2
    · exact heq ▸ foldl_marginStep_prefix_acc is i
    · exact foldl_marginStep_prefix_mem is _ h2 i

/-! ## Lemmas: dedent structure -/

theorem map_eq_self_of (ls : List (List Char)) (f : List Char → List Char)
    (h : ∀ l ∈ ls, f l = l) : ls.map f = ls := by
  induction ls with
  | nil => rfl
  | cons a as ih =>
    rw [List.map_cons, h a (by simp), ih (fun l hl => h l (by simp [hl]))]

theorem stripLine_nil_margin (l : List Char) : stripLine [] l = l := by
  rw [stripLine, if_pos rfl]

theorem dedent_eq_map (s : List Char) :
    dedent s = joinNl ((zapWsLines (splitNl s)).map
      (stripLine (marginOf (zapWsLines (splitNl s))))) := by
  rw [dedent]
  by_cases h : marginOf (zapWsLines (splitNl s)) = []
  · rw [if_pos h, h, map_eq_self_of _ _ (fun l _ => stripLine_nil_margin l)]
  · rw [if_neg h]

theorem zapWsLines_append (a b : List (List Char)) :
    zapWsLines (a ++ b) = zapWsLines a ++ zapWsLines b := by
  rw [zapWsLines, zapWsLines, zapWsLines, List.map_append]

theorem zapWsLines_cons (l : List Char) (ls : List (List Char)) :
    zapWsLines (l :: ls) = (if wsOnly l then [] else l) :: zapWsLines ls := by
  rw [zapWsLines, zapWsLines, List.map_cons]

theorem stripLine_keep_suffix (m sp x : List Char) (hpre : m <+: sp) :
    ∃ sp2, stripLine m (sp ++ x) = sp2 ++ x ∧ ∀ c ∈ sp2, c ∈ sp := by
  rw [stripLine]
  split
  · exact ⟨sp, rfl, fun c hc => hc⟩
  · split
    · refine ⟨sp.drop m.length, ?_, fun c hc => List.drop_subset _ sp hc⟩
      rw [List.drop_append_of_le_length hpre.length_le]
    · exact ⟨sp, rfl, fun c hc => hc⟩

theorem stripLine_id_col0 (m l : List Char) (hm : ∀ c ∈ m, isTabSpace c = true)
    (hl : colZeroLine l = true) : stripLine m l = l := by
  rw [stripLine]
  split
  · rfl
  · rename_i hmne
    split
    · rename_i hpref
      obtain ⟨m0, ms, hm0⟩ := List.exists_cons_of_ne_nil hmne
      subst hm0
      cases l with
      | nil => simp [List.isPrefixOf] at hpref
      | cons c t =>
        have hp := List.isPrefixOf_iff_prefix.mp hpref
        rw [List.cons_prefix_cons] at hp
        have hts : isTabSpace m0 = true := hm m0 (List.mem_cons_self m0 ms)
        rw [colZeroLine] at hl
        rw [hp.1] at hts
        rw [hts] at hl
        simp at hl
    · rfl

/-! ## Lemmas: find, rfind, slices -/

theorem pyFind_append_not_mem (c : Char) (u v : List Char) (hu : c ∉ u) :
    pyFind c (u ++ v) = u.length + pyFind c v := by
  induction u with
  | nil => simp
  | cons a as ih =>
    have ha : a ≠ c := fun h => hu (h ▸ List.mem_cons_self a as)
    rw [List.cons_append]
    simp only [pyFind, if_neg ha]
    rw [ih (fun h => hu (List.mem_cons_of_mem a h))]
    simp [List.length_cons]
    omega

theorem pyFind_cons_self (c : Char) (r : List Char) : pyFind c (c :: r) = 0 := by
  simp [pyFind]

/-! ## Lemmas: decimal digits -/

theorem digitChar_bounds (k : Nat) (hk : k < 10) :
    48 ≤ (digitChar k).toNat ∧ (digitChar k).toNat ≤ 57 := by
  interval_cases k <;> decide

theorem natToDec_digit (n : Nat) : ∀ c ∈ natToDec n, 48 ≤ c.toNat ∧ c.toNat ≤ 57 := by
  induction n using Nat.strong_induction_on with
  | _ n ih =>
    intro c hc
    rw [natToDec] at hc
    split at hc
    · rename_i h
      simp at hc
      exact hc ▸ digitChar_bounds n h
    · rename_i h
      rcases List.mem_append.mp hc with h1 | h2
      · exact ih (n / 10) (Nat.div_lt_self (by omega) (by omega)) c h1
      · simp at h2
        exact h2 ▸ digitChar_bounds (n % 10) (Nat.mod_lt n (by omega))

theorem digit_not_tabspace (c : Char) (h1 : 48 ≤ c.toNat) : isTabSpace c = false := by
  by_contra h
  rw [Bool.not_eq_false] at h
  rw [isTabSpace] at h
  rcases Bool.or_eq_true_iff.mp h with h2 | h2
  · have hc : c = ' ' := of_decide_eq_true h2
    rw [hc] at h1
    rw [show (' ').toNat = 32 from rfl] at h1
    omega
  · have hc : c = '\t' := of_decide_eq_true h2
    rw [hc] at h1
    rw [show ('\t').toNat = 9 from rfl] at h1
    omega

theorem digit_not_ws (c : Char) (h1 : 48 ≤ c.toNat) : isPyWs c = false := by
  by_contra h
  rw [Bool.not_eq_false] at h
  rw [isPyWs] at h
  rcases Bool.or_eq_true_iff.mp h with h2 | h2
  · rcases Bool.or_eq_true_iff.mp h2 with h3 | h3
    · rcases Bool.or_eq_true_iff.mp h3 with h4 | h4
      · rcases Bool.or_eq_true_iff.mp h4 with h5 | h5
        · rcases Bool.or_eq_true_iff.mp h5 with h6 | h6
          · have hc : c = ' ' := of_decide_eq_true h6
            rw [hc, show (' ').toNat = 32 from rfl] at h1; omega
          · have hc : c = '\t' := of_decide_eq_true h6
            rw [hc, show ('\t').toNat = 9 from rfl] at h1; omega
        · have hc : c = '\n' := of_decide_eq_true h5
          rw [hc, show ('\n').toNat = 10 from rfl] at h1; omega
      · have hc : c = '\r' := of_decide_eq_true h4
        rw [hc, show ('\r').toNat = 13 from rfl] at h1; omega
    · have hc : c = '\x0b' := of_decide_eq_true h3
      rw [hc, show ('\x0b').toNat = 11 from rfl] at h1; omega
  · have hc : c = '\x0c' := of_decide_eq_true h2
    rw [hc, show ('\x0c').toNat = 12 from rfl] at h1; omega

theorem natToDec_not_nl (n : Nat) : '\n' ∉ natToDec n := by
  intro h
  have hb := natToDec_digit n '\n' h
  rw [show ('\n').toNat = 10 from rfl] at hb
  omega

theorem natToDec_tabspace_false (n : Nat) (c : Char) (hc : c ∈ natToDec n) :
    isTabSpace c = false :=
  digit_not_tabspace c (natToDec_digit n c hc).1

theorem natToDec_ws_false (n : Nat) (c : Char) (hc : c ∈ natToDec n) :
    isPyWs c = false :=
  digit_not_ws c (natToDec_digit n c hc).1

/-! ## Helper facts about the verdict policy -/

theorem statusIsFail_iff (parsed : PyDict) :
    statusIsFail parsed = true ↔ dictGet parsed osKey = some (PyVal.str failLit) := by
  rw [statusIsFail]
  rcases h : dictGet parsed osKey with _ | v
  · simp
  · cases v <;> simp

/-! ## Claim C1 -/

/-- C1 counterexample: the claim says a parsed response whose
`overall_status` is neither `pass` nor `fail` makes the pipeline exit
with code 1 (fail-closed).  At the concrete parsed response
`{"overall_status": "unknown"}` (with a found rules document and a
non-blank diff) the pipeline exits with code 0, so the claim is false: the
code's `if overall_status == "fail"` test is fail-open. -/
theorem C1_counterexample :
    (mainWithDiff ⟨("llama3:8b").toList, ("http://localhost:11434").toList, 2000, 300, false⟩
      ("rules").toList [] (('x') :: [])
      (Except.ok [(osKey, PyVal.str unknownLit)])).exitCode = 0 := by decide

/-- C1 (amended): for every successfully parsed model response whose
top-level object has no `overall_status` key or whose `overall_status`
value is neither `pass` nor `fail`, the pipeline treats the verdict as a
non-failure and exits with code 0 (fail-open: only the exact string
`"fail"` produces exit code 1), still emitting the parsed verdict. -/
theorem C1_unrecognized_status_fail_open (cfg : Config)
    (ai_checks_doc product_spec diff : List Char) (parsed : PyDict)
    (hdiff : pyStrip diff ≠ [])
    (hmiss : dictGet parsed osKey = none ∨
      (dictGet parsed osKey ≠ some (PyVal.str passLit) ∧
       dictGet parsed osKey ≠ some (PyVal.str failLit))) :
    (mainWithDiff cfg ai_checks_doc product_spec diff (Except.ok parsed)).exitCode = 0 ∧
    [OutLine.text jsonStartMarker, OutLine.jsonDump (PyVal.dict parsed),
      OutLine.text jsonEndMarker] <:+
      (mainWithDiff cfg ai_checks_doc product_spec diff (Except.ok parsed)).output := by
  have hnf : dictGet parsed osKey ≠ some (PyVal.str failLit) := by
    rcases hmiss with h | h
    · rw [h]; intro h2; cases h2
    · exact h.2
  have hs : statusIsFail parsed = false := by
    rw [← Bool.not_eq_true]
    exact fun hb => hnf ((statusIsFail_iff parsed).mp hb)
  constructor
  · simp only [mainWithDiff, if_neg hdiff, hs]
    rfl
  · simp only [mainWithDiff, if_neg hdiff]
    exact ⟨[OutLine.text (debugLenLine diff.length cfg.maxDiffChars),
            OutLine.text (if statusIsFail parsed then failStatusLine else okStatusLine)], rfl⟩

/-- C1 witness: the amended theorem applied at the concrete parsed
response `{"overall_status": "unknown"}`. -/
theorem C1_unrecognized_status_fail_open_witness :
    (mainWithDiff ⟨("m").toList, ("u").toList, 2000, 300, true⟩
      ("rules").toList [] (('x') :: [])
      (Except.ok [(osKey, PyVal.str unknownLit)])).exitCode = 0 ∧
    [OutLine.text jsonStartMarker,
      OutLine.jsonDump (PyVal.dict [(osKey, PyVal.str unknownLit)]),
      OutLine.text jsonEndMarker] <:+
      (mainWithDiff ⟨("m").toList, ("u").toList, 2000, 300, true⟩
        ("rules").toList [] (('x') :: [])
        (Except.ok [(osKey, PyVal.str unknownLit)])).output :=
  C1_unrecognized_status_fail_open _ _ _ _ _ (by decide)
    (Or.inr ⟨by
      intro h
      rw [show dictGet [(osKey, PyVal.str unknownLit)] osKey =
        some (PyVal.str unknownLit) from rfl] at h
      have h3 : unknownLit = passLit := by injection Option.some.inj h
      exact absurd h3 (by decide), by
      intro h
      rw [show dictGet [(osKey, PyVal.str unknownLit)] osKey =
        some (PyVal.str unknownLit) from rfl] at h
      have h3 : unknownLit = failLit := by injection Option.some.inj h
      exact absurd h3 (by decide)⟩)

/-! ## Claim C2 -/

/-- C2: for every run in which the diff text handed to the pipeline is
empty or whitespace-only, the model backend is never invoked
(`promptSent = none`), and the pipeline emits the no-changes verdict with
`overall_status = "pass"` between the JSON markers and exits with code 0. -/
theorem C2_empty_diff_pass (cfg : Config) (ai_checks_doc product_spec diff : List Char)
    (modelOutcome : Except (List Char) PyDict) (hdiff : pyStrip diff = []) :
    mainWithDiff cfg ai_checks_doc product_spec diff modelOutcome =
      { exitCode := 0,
        output := [OutLine.text noChangesLine, OutLine.text jsonStartMarker,
                   OutLine.jsonDump (PyVal.dict noChangesResult), OutLine.text jsonEndMarker],
        promptSent := none } ∧
    dictGet noChangesResult osKey = some (PyVal.str passLit) := by
  constructor
  · simp only [mainWithDiff, if_pos hdiff]
  · rfl

/-- C2 witness: the theorem applied to the whitespace-only diff `"  \n"`. -/
theorem C2_empty_diff_pass_witness :
    mainWithDiff ⟨("m").toList, ("u").toList, 2000, 300, false⟩
      ("rules").toList [] (("  \n").toList) (Except.error ("timeout").toList) =
      { exitCode := 0,
        output := [OutLine.text noChangesLine, OutLine.text jsonStartMarker,
                   OutLine.jsonDump (PyVal.dict noChangesResult), OutLine.text jsonEndMarker],
        promptSent := none } ∧
    dictGet noChangesResult osKey = some (PyVal.str passLit) :=
  C2_empty_diff_pass _ _ _ _ _ (by decide)

/-! ## Claim C5 -/

/-- C5: for every run in which the model call or the response parsing
fails (the caught `requests.Timeout` / `requests.RequestException` /
`json.JSONDecodeError`, surfaced here as `Except.error exc`), the
pipeline emits the synthesized fallback verdict with
`overall_status = "unknown"` whose notes carry the technical error detail
(`exc` is embedded in the second note), and the exit code is 1 exactly
when strict mode is enabled, else 0. -/
theorem C5_model_failure_fallback (cfg : Config)
    (ai_checks_doc product_spec diff exc : List Char) (hdiff : pyStrip diff ≠ []) :
    mainWithDiff cfg ai_checks_doc product_spec diff (Except.error exc) =
      { exitCode := if cfg.strictMode then 1 else 0,
        output := [OutLine.text (debugLenLine diff.length cfg.maxDiffChars),
                   OutLine.text (modelErrLine exc), OutLine.text jsonStartMarker,
                   OutLine.jsonDump (PyVal.dict (build_fallback_result exc)),
                   OutLine.text jsonEndMarker],
        promptSent := some (build_review_prompt cfg.maxDiffChars ai_checks_doc product_spec diff) } ∧
    dictGet (build_fallback_result exc) osKey = some (PyVal.str unknownLit) ∧
    dictGet (build_fallback_result exc) notesKey =
      some (PyVal.list [PyVal.str fallbackNote1, PyVal.str (detallePrefix ++ exc)]) ∧
    exc <:+: detallePrefix ++ exc := by
  refine ⟨?_, rfl, rfl, ⟨detallePrefix, [], by simp⟩⟩
  simp only [mainWithDiff, if_neg hdiff]

/-- C5 witness: the theorem applied to a concrete timeout error message. -/
theorem C5_model_failure_fallback_witness :
    mainWithDiff ⟨("m").toList, ("u").toList, 2000, 300, true⟩
      ("rules").toList [] (('x') :: []) (Except.error ("HTTPConnectionPool: Read timed out.").toList) =
      { exitCode := if (true : Bool) then 1 else 0,
        output := [OutLine.text (debugLenLine 1 2000),
                   OutLine.text (modelErrLine ("HTTPConnectionPool: Read timed out.").toList),
                   OutLine.text jsonStartMarker,
                   OutLine.jsonDump (PyVal.dict
                     (build_fallback_result ("HTTPConnectionPool: Read timed out.").toList)),
                   OutLine.text jsonEndMarker],
        promptSent := some (build_review_prompt 2000 ("rules").toList [] (('x') :: [])) } ∧
    dictGet (build_fallback_result ("HTTPConnectionPool: Read timed out.").toList) osKey =
      some (PyVal.str unknownLit) ∧
    dictGet (build_fallback_result ("HTTPConnectionPool: Read timed out.").toList) notesKey =
      some (PyVal.list [PyVal.str fallbackNote1,
        PyVal.str (detallePrefix ++ ("HTTPConnectionPool: Read timed out.").toList)]) ∧
    ("HTTPConnectionPool: Read timed out.").toList <:+:
      detallePrefix ++ ("HTTPConnectionPool: Read timed out.").toList :=
  C5_model_failure_fallback _ _ _ _ _ (by decide)

/-! ## Claim C7 -/

/-- C7: for every successfully parsed model response, the pipeline exits
with code 1 when the parsed `overall_status` equals `"fail"` and with
code 0 otherwise, and the emitted JSON block reproduces the parsed
verdict value unchanged (the dumped dict is `parsed` itself, so the
`checks` array is reproduced unchanged). -/
theorem C7_parsed_verdict_policy (cfg : Config)
    (ai_checks_doc product_spec diff : List Char) (parsed : PyDict)
    (hdiff : pyStrip diff ≠ []) :
    ((dictGet parsed osKey = some (PyVal.str failLit) →
        (mainWithDiff cfg ai_checks_doc product_spec diff (Except.ok parsed)).exitCode = 1) ∧
     (¬ dictGet parsed osKey = some (PyVal.str failLit) →
        (mainWithDiff cfg ai_checks_doc product_spec diff (Except.ok parsed)).exitCode = 0)) ∧
    [OutLine.text jsonStartMarker, OutLine.jsonDump (PyVal.dict parsed),
      OutLine.text jsonEndMarker] <:+
      (mainWithDiff cfg ai_checks_doc product_spec diff (Except.ok parsed)).output := by
  refine ⟨⟨?_, ?_⟩, ?_⟩
  · intro h
    have hs : statusIsFail parsed = true := (statusIsFail_iff parsed).mpr h
    simp only [mainWithDiff, if_neg hdiff, hs]
    rfl
  · intro h
    have hs : statusIsFail parsed = false := by
      rw [← Bool.not_eq_true]
      exact fun hb => h ((statusIsFail_iff parsed).mp hb)
    simp only [mainWithDiff, if_neg hdiff, hs]
    rfl
  · simp only [mainWithDiff, if_neg hdiff]
    exact ⟨[OutLine.text (debugLenLine diff.length cfg.maxDiffChars),
            OutLine.text (if statusIsFail parsed then failStatusLine else okStatusLine)], rfl⟩

/-- C7 witness: the theorem applied at the parsed verdict
`{"overall_status": "pass", "checks": [{"name": "t", "status": "pass",
"details": "ok"}], "notes": []}`: exit code 0 and the dumped dict is that
verdict unchanged. -/
theorem C7_parsed_verdict_policy_witness :
    ((dictGet [(osKey, PyVal.str passLit),
        (checksKey, PyVal.list [PyVal.dict [(("name").toList, PyVal.str ("t").toList),
          (("status").toList, PyVal.str passLit),
          (("details").toList, PyVal.str ("ok").toList)]]),
        (notesKey, PyVal.list [])] osKey = some (PyVal.str failLit) →
        (mainWithDiff ⟨("m").toList, ("u").toList, 2000, 300, false⟩ ("rules").toList []
          (('x') :: []) (Except.ok [(osKey, PyVal.str passLit),
            (checksKey, PyVal.list [PyVal.dict [(("name").toList, PyVal.str ("t").toList),
              (("status").toList, PyVal.str passLit),
              (("details").toList, PyVal.str ("ok").toList)]]),
            (notesKey, PyVal.list [])])).exitCode = 1) ∧
     (¬ dictGet [(osKey, PyVal.str passLit),
        (checksKey, PyVal.list [PyVal.dict [(("name").toList, PyVal.str ("t").toList),
          (("status").toList, PyVal.str passLit),
          (("details").toList, PyVal.str ("ok").toList)]]),
        (notesKey, PyVal.list [])] osKey = some (PyVal.str failLit) →
        (mainWithDiff ⟨("m").toList, ("u").toList, 2000, 300, false⟩ ("rules").toList []
          (('x') :: []) (Except.ok [(osKey, PyVal.str passLit),
            (checksKey, PyVal.list [PyVal.dict [(("name").toList, PyVal.str ("t").toList),
              (("status").toList, PyVal.str passLit),
              (("details").toList, PyVal.str ("ok").toList)]]),
            (notesKey, PyVal.list [])])).exitCode = 0)) ∧
    [OutLine.text jsonStartMarker, OutLine.jsonDump (PyVal.dict [(osKey, PyVal.str passLit),
        (checksKey, PyVal.list [PyVal.dict [(("name").toList, PyVal.str ("t").toList),
          (("status").toList, PyVal.str passLit),
          (("details").toList, PyVal.str ("ok").toList)]]),
        (notesKey, PyVal.list [])]),
      OutLine.text jsonEndMarker] <:+
      (mainWithDiff ⟨("m").toList, ("u").toList, 2000, 300, false⟩ ("rules").toList []
        (('x') :: []) (Except.ok [(osKey, PyVal.str passLit),
          (checksKey, PyVal.list [PyVal.dict [(("name").toList, PyVal.str ("t").toList),
            (("status").toList, PyVal.str passLit),
            (("details").toList, PyVal.str ("ok").toList)]]),
          (notesKey, PyVal.list [])])).output :=
  C7_parsed_verdict_policy _ _ _ _ _ (by decide)

/-! ## Claim C3 -/

/-- C3: for every run in which the rules document exists at neither
candidate path (`ci/ai_checks.md` and `.github/ai-checks.md` both
absent), the pipeline emits the synthesized fallback verdict with
`overall_status = "unknown"` between the JSON markers, whose note names
both missing document candidates, never calls the model, and exits with
code 1 exactly when strict mode is enabled, else 0. -/
theorem C3_missing_rules_document (cfg : Config) (ps1 ps2 : Option (List Char))
    (git : GitEnv) (mo : Except (List Char) PyDict) :
    mainRun cfg ⟨none, none, ps1, ps2⟩ git mo =
      { exitCode := if cfg.strictMode then 1 else 0,
        output := headerLines cfg ++
          [OutLine.text (("❌ ").toList ++ missingDocMsg), OutLine.text jsonStartMarker,
           OutLine.jsonDump (PyVal.dict (build_fallback_result missingDocMsg)),
           OutLine.text jsonEndMarker],
        promptSent := none } ∧
    dictGet (build_fallback_result missingDocMsg) osKey = some (PyVal.str unknownLit) ∧
    ("ci/ai_checks.md").toList <:+: missingDocMsg ∧
    (".github/ai-checks.md").toList <:+: missingDocMsg ∧
    dictGet (build_fallback_result missingDocMsg) notesKey =
      some (PyVal.list [PyVal.str fallbackNote1,
        PyVal.str (detallePrefix ++ missingDocMsg)]) := by
  refine ⟨?_, rfl, by decide, by decide, rfl⟩
  simp only [mainRun, load_ai_checks_document]
  simp

/-! ## Claim C9 -/

theorem mainWithDiff_block (cfg : Config) (a p diff : List Char)
    (mo : Except (List Char) PyDict) :
    ∃ v : PyDict, [OutLine.text jsonStartMarker, OutLine.jsonDump (PyVal.dict v),
      OutLine.text jsonEndMarker] <:+ (mainWithDiff cfg a p diff mo).output := by
  by_cases hdiff : pyStrip diff = []
  · exact ⟨noChangesResult, ⟨[OutLine.text noChangesLine],
      by simp only [mainWithDiff, if_pos hdiff]; rfl⟩⟩
  · cases mo with
    | error exc =>
      exact ⟨build_fallback_result exc,
        ⟨[OutLine.text (debugLenLine diff.length cfg.maxDiffChars),
          OutLine.text (modelErrLine exc)],
        by simp only [mainWithDiff, if_neg hdiff]; rfl⟩⟩
    | ok parsed =>
      exact ⟨parsed,
        ⟨[OutLine.text (debugLenLine diff.length cfg.maxDiffChars),
          OutLine.text (if statusIsFail parsed then failStatusLine else okStatusLine)],
        by simp only [mainWithDiff, if_neg hdiff]; rfl⟩⟩

/-- Every normally-returning run — any filesystem and git state, and any
model outcome that `main` survives, that is, a caught exception or a
parsed top-level object — prints some verdict dict between the literal
start and end marker lines.  The theorems below exhibit the one kind of
transcript without the block: the uncaught-`AttributeError` path of a
successfully parsed non-dict response. -/
theorem json_block_on_every_noncrash_path (cfg : Config) (fs : FsEnv) (git : GitEnv)
    (mo : Except (List Char) PyDict) :
    ∃ v : PyDict, [OutLine.text jsonStartMarker, OutLine.jsonDump (PyVal.dict v),
      OutLine.text jsonEndMarker] <:+: (mainRun cfg fs git mo).output := by
  obtain ⟨ci, gh, p1, p2⟩ := fs
  rcases hdoc : load_ai_checks_document ⟨ci, gh, p1, p2⟩ with ⟨docPrints, res⟩
  cases res with
  | error e =>
    refine ⟨build_fallback_result e, List.IsSuffix.isInfix ?_⟩
    simp only [mainRun, hdoc]
    exact ⟨headerLines cfg ++ docPrints ++ [OutLine.text (("❌ ").toList ++ e)], by simp⟩
  | ok doc =>
    obtain ⟨v, hv⟩ := mainWithDiff_block cfg doc
      (load_product_spec ⟨ci, gh, p1, p2⟩).2 (get_git_diff git) mo
    refine ⟨v, List.IsSuffix.isInfix ?_⟩
    simp only [mainRun, hdoc]
    refine hv.trans ?_
    exact ⟨headerLines cfg ++ docPrints ++ (load_product_spec ⟨ci, gh, p1, p2⟩).1, by simp⟩

theorem mainWithDiffTotal_caughtError (cfg : Config) (a p diff e : List Char) :
    mainWithDiffTotal cfg a p diff (ModelOutcome.caughtError e) =
      RunOutcome.exits (mainWithDiff cfg a p diff (Except.error e)) := by
  by_cases hdiff : pyStrip diff = []
  · simp only [mainWithDiffTotal, mainWithDiff, if_pos hdiff]
  · simp only [mainWithDiffTotal, mainWithDiff, if_neg hdiff]

theorem mainWithDiffTotal_parsedDict (cfg : Config) (a p diff : List Char) (d : PyDict) :
    mainWithDiffTotal cfg a p diff (ModelOutcome.parsedValue (PyVal.dict d)) =
      RunOutcome.exits (mainWithDiff cfg a p diff (Except.ok d)) := by
  by_cases hdiff : pyStrip diff = []
  · simp only [mainWithDiffTotal, mainWithDiff, if_pos hdiff]
  · simp only [mainWithDiffTotal, mainWithDiff, if_neg hdiff, asDict]

theorem asDict_eq_none_of_nondict (v : PyVal) (hv : ∀ d : PyDict, v ≠ PyVal.dict d) :
    asDict v = none := by
  cases v <;> first | rfl | exact absurd rfl (hv _)

/-- Any successfully parsed non-dict value, reached with a non-blank
diff, crashes the process with only the diff-length debug line printed
after the pipeline's preamble: no JSON markers, no verdict dump. -/
theorem mainWithDiffTotal_crash (cfg : Config) (a p diff : List Char) (v : PyVal)
    (hdiff : pyStrip diff ≠ []) (hv : ∀ d : PyDict, v ≠ PyVal.dict d) :
    mainWithDiffTotal cfg a p diff (ModelOutcome.parsedValue v) =
      RunOutcome.crashes [OutLine.text (debugLenLine diff.length cfg.maxDiffChars)] := by
  simp only [mainWithDiffTotal, if_neg hdiff, asDict_eq_none_of_nondict v hv]

theorem mainRunTotal_caughtError (cfg : Config) (fs : FsEnv) (git : GitEnv)
    (e : List Char) :
    mainRunTotal cfg fs git (ModelOutcome.caughtError e) =
      RunOutcome.exits (mainRun cfg fs git (Except.error e)) := by
  rcases hdoc : load_ai_checks_document fs with ⟨docPrints, res⟩
  cases res with
  | error er => simp only [mainRunTotal, mainRun, hdoc]
  | ok doc => simp only [mainRunTotal, mainRun, hdoc, mainWithDiffTotal_caughtError]

theorem mainRunTotal_parsedDict (cfg : Config) (fs : FsEnv) (git : GitEnv)
    (d : PyDict) :
    mainRunTotal cfg fs git (ModelOutcome.parsedValue (PyVal.dict d)) =
      RunOutcome.exits (mainRun cfg fs git (Except.ok d)) := by
  rcases hdoc : load_ai_checks_document fs with ⟨docPrints, res⟩
  cases res with
  | error er => simp only [mainRunTotal, mainRun, hdoc]
  | ok doc => simp only [mainRunTotal, mainRun, hdoc, mainWithDiffTotal_parsedDict]

/-- C9: refuted — a code path terminates without producing the JSON
block.  When the model's response is the text `[]` (valid JSON, no
fences, no braces), `clean_and_parse_json` passes it through unchanged
and `json.loads` returns a list; line 345's
`parsed.get("overall_status")` then raises `AttributeError`, which none
of line 340's handlers catch, so the process dies with only the header,
document-loading and diff-length lines printed — no JSON markers and no
verdict dump, although the module docstring promises that a valid JSON
is always printed. -/
theorem C9_crash_on_nondict_response :
    cleanRaw (("[]").toList) = ("[]").toList ∧
    mainRunTotal ⟨("m").toList, ("u").toList, 2000, 300, false⟩
        ⟨some (("rules").toList), none, none, none⟩
        ⟨⟨0, [], []⟩, ⟨0, ("diff --git a/f b/f").toList, []⟩, ⟨0, [], []⟩, ⟨0, [], []⟩⟩
        (ModelOutcome.parsedValue (PyVal.list [])) =
      RunOutcome.crashes
        (headerLines ⟨("m").toList, ("u").toList, 2000, 300, false⟩ ++
          [OutLine.text usandoAiChecksCi, OutLine.text sinSpecMsg,
           OutLine.text (debugLenLine 18 2000)]) :=
  ⟨by decide, rfl⟩

/-! ## Shared helper lemmas for C4, C6, C8, C10 -/

theorem getLast?_append_right (a b : List Char) (hb : b ≠ []) :
    (a ++ b).getLast? = b.getLast? := by
  rw [← List.head?_reverse, ← List.head?_reverse, List.reverse_append]
  have hbr : b.reverse ≠ [] := by
    rw [ne_eq, List.reverse_eq_nil_iff]; exact hb
  obtain ⟨x, xs, hx⟩ := List.exists_cons_of_ne_nil hbr
  rw [hx, List.cons_append]
  simp

theorem pyStrip_eq_self (s : List Char) (c d : Char) (h1 : s.head? = some c)
    (hw1 : isPyWs c = false) (h2 : s.getLast? = some d) (hw2 : isPyWs d = false) :
    pyStrip s = s := by
  cases s with
  | nil => simp at h1
  | cons a r =>
    have hac : a = c := by simpa using h1
    have hlstrip : pyLstrip (a :: r) = a :: r := by
      rw [pyLstrip, List.dropWhile_cons_of_neg (by rw [hac, hw1]; simp)]
    rw [pyStrip, hlstrip]
    have hrev : (a :: r).reverse.head? = some d := by
      rw [List.head?_reverse]
      exact h2
    obtain ⟨b, rr, hbr⟩ : ∃ b rr, (a :: r).reverse = b :: rr := by
      cases hx : (a :: r).reverse with
      | nil => rw [hx] at hrev; simp at hrev
      | cons b rr => exact ⟨b, rr, rfl⟩
    have hbd : b = d := by rw [hbr] at hrev; simpa using hrev
    rw [pyRstrip, hbr, List.dropWhile_cons_of_neg (by rw [hbd, hw2]; simp), ← hbr,
      List.reverse_reverse]

theorem mem_zap_of_not_wsOnly (l : List Char) (ls : List (List Char))
    (hl : l ∈ ls) (hw : wsOnly l = false) : l ∈ zapWsLines ls := by
  rw [zapWsLines]
  have hm := List.mem_map_of_mem (fun l => if wsOnly l then [] else l) hl
  simpa [hw] using hm

theorem zap_ne_nil (ls : List (List Char)) (h : ls ≠ []) : zapWsLines ls ≠ [] := by
  rw [zapWsLines]
  simpa using h

/-- C4: for every diff input strictly longer than the configured maximum
diff character count, the prompt builder's embedded diff section is the
truncated diff `diff.take maxDiffChars` (whose length never exceeds the
maximum) followed by the truncation notice, and the notice body stating
the applied limit is present verbatim in the final prompt. -/
theorem C4_truncation_bound_and_notice (maxDiffChars : Nat) (ai_checks_doc product_spec diff : List Char)
    (hlen : diff.length > maxDiffChars) :
    trimmedDiff maxDiffChars diff = diff.take maxDiffChars ++ truncNotice maxDiffChars ∧
    (diff.take maxDiffChars).length ≤ maxDiffChars ∧
    truncNoticeBody maxDiffChars <:+:
      build_review_prompt maxDiffChars ai_checks_doc product_spec diff := by
  have htrim : trimmedDiff maxDiffChars diff =
      diff.take maxDiffChars ++ truncNotice maxDiffChars := by
    rw [trimmedDiff, if_pos hlen]
  refine ⟨htrim, List.length_take_le _ _, ?_⟩
  -- facts about the notice body
  obtain ⟨brest, hbcons⟩ : ∃ x, truncNoticeBody maxDiffChars = '[' :: x :=
    ⟨("Diff truncado a ").toList ++ natToDec maxDiffChars ++
      (" caracteres para ajustarse al contexto.]").toList, by
        rw [truncNoticeBody]
        rw [show ("[Diff truncado a ").toList = '[' :: ("Diff truncado a ").toList from rfl]
        simp⟩
  have hcontent : hasContent (truncNoticeBody maxDiffChars) = true := by
    rw [hbcons, hasContent]
    simp
    exact Or.inl (by decide)
  have hindent : indentOf (truncNoticeBody maxDiffChars) = [] := by
    rw [hbcons, indentOf, List.takeWhile_cons_of_neg (by decide)]
  have hwsonly : wsOnly (truncNoticeBody maxDiffChars) = false := by
    rw [hbcons, wsOnly]
    simp
    intro h
    exact absurd h (by decide)
  have hnl : '\n' ∉ truncNoticeBody maxDiffChars := by
    rw [truncNoticeBody]
    intro h
    rcases List.mem_append.mp h with h1 | h1
    · rcases List.mem_append.mp h1 with h2 | h2
      · exact absurd h2 (by decide)
      · exact natToDec_not_nl maxDiffChars h2
    · exact absurd h1 (by decide)
  have hlast : (truncNoticeBody maxDiffChars).getLast? = some ']' := by
    rw [truncNoticeBody, getLast?_append_right _ _ (by decide)]
    decide
  have hpystrip : pyStrip (truncNoticeBody maxDiffChars) = truncNoticeBody maxDiffChars :=
    pyStrip_eq_self _ '[' ']' (by rw [hbcons]; rfl) (by decide) hlast (by decide)
  -- decompose the raw prompt around the notice
  have hP1 : promptPart1 = '\n' ::
      ((("    You are an automated code reviewer integrated into a CI pipeline.").toList)
        ++ '\n' :: (promptPart1.drop 71)) := by decide
  have hP4 : promptPart4 = '\n' :: (promptPart4.drop 1) := by decide
  have hraw : promptPart1 ++ product_spec ++ promptPart2 ++ ai_checks_doc ++ promptPart3 ++
      trimmedDiff maxDiffChars diff ++ promptPart4 =
      (promptPart1 ++ product_spec ++ promptPart2 ++ ai_checks_doc ++ promptPart3 ++
        diff.take maxDiffChars) ++
      '\n' :: ('\n' :: (truncNoticeBody maxDiffChars ++ '\n' :: (promptPart4.drop 1))) := by
    rw [htrim, truncNotice]
    conv_lhs => rw [hP4]
    simp [List.append_assoc]
  have hsplitA : ∃ SArest,
      splitNl (promptPart1 ++ product_spec ++ promptPart2 ++ ai_checks_doc ++ promptPart3 ++
        diff.take maxDiffChars) =
      [] :: ((("    You are an automated code reviewer integrated into a CI pipeline.").toList)
        :: SArest) := by
    have hAeq : promptPart1 ++ product_spec ++ promptPart2 ++ ai_checks_doc ++ promptPart3 ++
        diff.take maxDiffChars = '\n' ::
        ((("    You are an automated code reviewer integrated into a CI pipeline.").toList) ++
          '\n' :: (promptPart1.drop 71 ++ product_spec ++ promptPart2 ++ ai_checks_doc ++
            promptPart3 ++ diff.take maxDiffChars)) := by
      conv_lhs => rw [hP1]
      simp [List.append_assoc]
    rw [hAeq, splitNl_cons_nl, splitNl_append, splitNl_noNl _ (by decide)]
    exact ⟨splitNl (promptPart1.drop 71 ++ product_spec ++ promptPart2 ++ ai_checks_doc ++
      promptPart3 ++ diff.take maxDiffChars), rfl⟩
  obtain ⟨SArest, hSA⟩ := hsplitA
  have hsplit : splitNl (promptPart1 ++ product_spec ++ promptPart2 ++ ai_checks_doc ++
      promptPart3 ++ trimmedDiff maxDiffChars diff ++ promptPart4) =
      splitNl (promptPart1 ++ product_spec ++ promptPart2 ++ ai_checks_doc ++ promptPart3 ++
        diff.take maxDiffChars) ++
      ([] :: ([truncNoticeBody maxDiffChars] ++ splitNl (promptPart4.drop 1))) := by
    rw [hraw, splitNl_append, splitNl_cons_nl, splitNl_append, splitNl_noNl _ hnl]
  -- the margin is empty because the notice line is flush left
  have hbodyZ : truncNoticeBody maxDiffChars ∈ zapWsLines (splitNl (promptPart1 ++
      product_spec ++ promptPart2 ++ ai_checks_doc ++ promptPart3 ++
      trimmedDiff maxDiffChars diff ++ promptPart4)) := by
    refine mem_zap_of_not_wsOnly _ _ ?_ hwsonly
    rw [hsplit]
    exact List.mem_append_right _ (List.mem_cons_of_mem _ (List.mem_append_left _
      (List.mem_cons_self _ _)))
  have hm : marginOf (zapWsLines (splitNl (promptPart1 ++ product_spec ++ promptPart2 ++
      ai_checks_doc ++ promptPart3 ++ trimmedDiff maxDiffChars diff ++ promptPart4))) = [] :=
    List.prefix_nil.mp (hindent ▸ marginOf_prefix _ _ hbodyZ hcontent)
  -- the dedented text splits around the notice
  have hT : dedent (promptPart1 ++ product_spec ++ promptPart2 ++ ai_checks_doc ++
      promptPart3 ++ trimmedDiff maxDiffChars diff ++ promptPart4) =
      joinNl (zapWsLines (splitNl (promptPart1 ++ product_spec ++ promptPart2 ++
        ai_checks_doc ++ promptPart3 ++ trimmedDiff maxDiffChars diff ++ promptPart4))) := by
    rw [dedent]
    simp only [hm, if_pos]
  have hZ : zapWsLines (splitNl (promptPart1 ++ product_spec ++ promptPart2 ++
      ai_checks_doc ++ promptPart3 ++ trimmedDiff maxDiffChars diff ++ promptPart4)) =
      zapWsLines (splitNl (promptPart1 ++ product_spec ++ promptPart2 ++ ai_checks_doc ++
        promptPart3 ++ diff.take maxDiffChars)) ++
      ([] :: (truncNoticeBody maxDiffChars :: zapWsLines (splitNl (promptPart4.drop 1)))) := by
    rw [hsplit, zapWsLines_append]
    rw [show ([] : List Char) :: ([truncNoticeBody maxDiffChars] ++
      splitNl (promptPart4.drop 1)) = [([] : List Char)] ++ ([truncNoticeBody maxDiffChars] ++
      splitNl (promptPart4.drop 1)) from rfl]
    rw [zapWsLines_append, zapWsLines_append]
    rw [show zapWsLines [([] : List Char)] = [([] : List Char)] from rfl]
    rw [show zapWsLines [truncNoticeBody maxDiffChars] =
      [truncNoticeBody maxDiffChars] from by
        rw [zapWsLines, List.map_cons, if_neg (by rw [hwsonly]; simp)]; rfl]
    simp
  have hXAne : zapWsLines (splitNl (promptPart1 ++ product_spec ++ promptPart2 ++
      ai_checks_doc ++ promptPart3 ++ diff.take maxDiffChars)) ≠ [] :=
    zap_ne_nil _ (splitNl_ne_nil _)
  have hXBne : zapWsLines (splitNl (promptPart4.drop 1)) ≠ [] :=
    zap_ne_nil _ (splitNl_ne_nil _)
  obtain ⟨xb, xbs, hXB⟩ := List.exists_cons_of_ne_nil hXBne
  have hjoin : joinNl (zapWsLines (splitNl (promptPart1 ++ product_spec ++ promptPart2 ++
      ai_checks_doc ++ promptPart3 ++ trimmedDiff maxDiffChars diff ++ promptPart4))) =
      (joinNl (zapWsLines (splitNl (promptPart1 ++ product_spec ++ promptPart2 ++
        ai_checks_doc ++ promptPart3 ++ diff.take maxDiffChars))) ++ ['\n', '\n']) ++
      truncNoticeBody maxDiffChars ++
      ('\n' :: joinNl (zapWsLines (splitNl (promptPart4.drop 1)))) := by
    rw [hZ, joinNl_append _ _ hXAne (by simp)]
    rw [show ([] : List Char) :: (truncNoticeBody maxDiffChars ::
      zapWsLines (splitNl (promptPart4.drop 1))) =
      [([] : List Char)] ++ (truncNoticeBody maxDiffChars ::
        zapWsLines (splitNl (promptPart4.drop 1))) from rfl]
    rw [joinNl_append _ _ (by simp) (by simp)]
    rw [hXB, joinNl_cons_cons]
    simp [List.append_assoc, joinNl]
  -- a non-whitespace character precedes the notice
  have hYou : ("    You are an automated code reviewer integrated into a CI pipeline.").toList
      ∈ zapWsLines (splitNl (promptPart1 ++ product_spec ++ promptPart2 ++ ai_checks_doc ++
        promptPart3 ++ diff.take maxDiffChars)) := by
    refine mem_zap_of_not_wsOnly _ _ ?_ (by decide)
    rw [hSA]
    exact List.mem_cons_of_mem _ (List.mem_cons_self _ _)
  have hu : ∃ c ∈ (joinNl (zapWsLines (splitNl (promptPart1 ++ product_spec ++ promptPart2 ++
      ai_checks_doc ++ promptPart3 ++ diff.take maxDiffChars))) ++ ['\n', '\n']),
      isPyWs c = false :=
    ⟨'Y', List.mem_append_left _ (mem_joinNl 'Y' _ _ (by decide) hYou), by decide⟩
  -- conclude
  have hinf := pyStrip_infix_of _ (truncNoticeBody maxDiffChars)
    ('\n' :: joinNl (zapWsLines (splitNl (promptPart4.drop 1)))) hu
  rw [hpystrip] at hinf
  rw [build_review_prompt, hT, hjoin]
  exact hinf

/-- C4 witness: the theorem applied at maximum 5 and the ten-character
diff `"0123456789"`. -/
theorem C4_truncation_bound_and_notice_witness :
    trimmedDiff 5 (("0123456789").toList) =
      (("0123456789").toList).take 5 ++ truncNotice 5 ∧
    ((("0123456789").toList).take 5).length ≤ 5 ∧
    truncNoticeBody 5 <:+: build_review_prompt 5 (("x").toList) [] (("0123456789").toList) :=
  C4_truncation_bound_and_notice 5 (("x").toList) [] (("0123456789").toList) (by decide)

/-! ## Claim C6 -/

theorem cleanRaw_id_of_object (t : List Char) (ht : t.head? = some '\x7b')
    (ht2 : t.getLast? = some '\x7d') : cleanRaw t = t := by
  obtain ⟨t', rfl⟩ : ∃ t', t = '\x7b' :: t' := by
    cases t with
    | nil => simp at ht
    | cons c t' =>
      have hc : c = '\x7b' := by simpa using ht
      exact ⟨t', by rw [hc]⟩
  have hstrip : pyStrip ('\x7b' :: t') = '\x7b' :: t' :=
    pyStrip_eq_self _ _ _ rfl (by decide) ht2 (by decide)
  obtain ⟨r, hr⟩ : ∃ r, ('\x7b' :: t').reverse = '\x7d' :: r := by
    have hrev : ('\x7b' :: t').reverse.head? = some '\x7d' := by
      rw [List.head?_reverse]; exact ht2
    cases hx : ('\x7b' :: t').reverse with
    | nil => rw [hx] at hrev; simp at hrev
    | cons b rr =>
      rw [hx] at hrev
      exact ⟨rr, by simpa using hrev⟩
  have hfence : ticks.isPrefixOf ('\x7b' :: t') = false := by
    rw [ticks]
    simp [List.isPrefixOf]
  have hmem1 : '\x7b' ∈ '\x7b' :: t' := List.mem_cons_self _ _
  have hmem2 : '\x7d' ∈ '\x7b' :: t' := by
    have h9 : '\x7d' ∈ ('\x7b' :: t').reverse := by rw [hr]; exact List.mem_cons_self _ _
    exact List.mem_reverse.mp h9
  rw [cleanRaw, hstrip, hfence]
  simp only [Bool.false_eq_true, if_false]
  rw [if_pos ⟨hmem1, hmem2⟩]
  have hfind : pyFind '\x7b' ('\x7b' :: t') = 0 := pyFind_cons_self _ _
  have hrfind : pyRfind '\x7d' ('\x7b' :: t') = ('\x7b' :: t').length - 1 := by
    rw [pyRfind, hr, pyFind_cons_self]
    simp
  rw [hfind, hrfind, pySlice]
  have hlen : ('\x7b' :: t').length - 1 + 1 - 0 = ('\x7b' :: t').length := by
    simp
  rw [hlen]
  simp

theorem cleanRaw_unwrap (t pre post : List Char)
    (ht : t.head? = some '\x7b') (ht2 : t.getLast? = some '\x7d')
    (cpre : Char) (pre' : List Char) (hpre : pre = cpre :: pre')
    (hpw : isPyWs cpre = false) (hpt : cpre ≠ '\x60')
    (dpost : Char) (hdp : post.getLast? = some dpost) (hdw : isPyWs dpost = false)
    (hb1 : '\x7b' ∉ pre) (hb2 : '\x7d' ∉ post) :
    cleanRaw (pre ++ ("\x60\x60\x60json\n").toList ++ t ++ ('\n' :: ticks) ++ post) = t := by
  obtain ⟨t', rfl⟩ : ∃ x, t = '\x7b' :: x := by
    cases t with
    | nil => simp at ht
    | cons c x =>
      have hc : c = '\x7b' := by simpa using ht
      exact ⟨x, by rw [hc]⟩
  obtain ⟨r, hr⟩ : ∃ r, ('\x7b' :: t').reverse = '\x7d' :: r := by
    have hrev : ('\x7b' :: t').reverse.head? = some '\x7d' := by
      rw [List.head?_reverse]; exact ht2
    cases hx : ('\x7b' :: t').reverse with
    | nil => rw [hx] at hrev; simp at hrev
    | cons b rr =>
      rw [hx] at hrev
      exact ⟨rr, by simpa using hrev⟩
  have hpostne : post ≠ [] := by
    intro h; rw [h] at hdp; simp at hdp
  set fo : List Char := ("\x60\x60\x60json\n").toList with hfo
  set fc : List Char := '\n' :: ticks with hfc
  set w : List Char := pre ++ fo ++ ('\x7b' :: t') ++ fc ++ post with hw
  have hhead : w.head? = some cpre := by
    rw [hw, hpre]
    simp
  have hlast : w.getLast? = some dpost := by
    rw [hw]
    rw [getLast?_append_right _ post hpostne]
    exact hdp
  have hstrip : pyStrip w = w := pyStrip_eq_self w cpre dpost hhead hpw hlast hdw
  have hfence : ticks.isPrefixOf w = false := by
    obtain ⟨ww, hww⟩ : ∃ ww, w = cpre :: ww := by
      rw [hw, hpre]
      exact ⟨pre' ++ fo ++ ('\x7b' :: t') ++ fc ++ post, by simp⟩
    rw [hww, ticks]
    simp [List.isPrefixOf]
    intro h
    exact absurd h.symm hpt
  have hmem1 : '\x7b' ∈ w := by
    rw [hw]
    exact List.mem_append_left _ (List.mem_append_left _ (List.mem_append_right _
      (List.mem_cons_self _ _)))
  have hmem2 : '\x7d' ∈ w := by
    rw [hw]
    have h9 : '\x7d' ∈ ('\x7b' :: t') := by
      have h8 : '\x7d' ∈ ('\x7b' :: t').reverse := by rw [hr]; exact List.mem_cons_self _ _
      exact List.mem_reverse.mp h8
    exact List.mem_append_left _ (List.mem_append_left _ (List.mem_append_right _ h9))
  have hassoc : w = (pre ++ fo) ++ (('\x7b' :: t') ++ (fc ++ post)) := by
    rw [hw]; simp [List.append_assoc]
  have hnotmem : '\x7b' ∉ pre ++ fo := by
    intro h
    rcases List.mem_append.mp h with h1 | h1
    · exact hb1 h1
    · rw [hfo] at h1
      exact absurd h1 (by decide)
  have hfind : pyFind '\x7b' w = (pre ++ fo).length := by
    rw [hassoc, pyFind_append_not_mem _ _ _ hnotmem, List.cons_append, pyFind_cons_self,
      Nat.add_zero]
  have hrassoc : w.reverse = (post.reverse ++ fc.reverse) ++
      (('\x7b' :: t').reverse ++ (fo.reverse ++ pre.reverse)) := by
    rw [hw]; simp [List.append_assoc]
  have hnotmem2 : '\x7d' ∉ post.reverse ++ fc.reverse := by
    intro h
    rcases List.mem_append.mp h with h1 | h1
    · exact hb2 (List.mem_reverse.mp h1)
    · rw [hfc] at h1
      exact absurd h1 (by decide)
  have hfindr : pyFind '\x7d' w.reverse = (post.reverse ++ fc.reverse).length := by
    rw [hrassoc, pyFind_append_not_mem _ _ _ hnotmem2, hr, List.cons_append, pyFind_cons_self,
      Nat.add_zero]
  have hrfind : pyRfind '\x7d' w = (pre ++ fo).length + ('\x7b' :: t').length - 1 := by
    rw [pyRfind, hfindr, hw]
    simp
    omega
  rw [cleanRaw, hstrip, hfence]
  simp only [Bool.false_eq_true, if_false]
  rw [if_pos ⟨hmem1, hmem2⟩]
  rw [hfind, hrfind, pySlice]
  rw [hassoc, List.drop_left]
  have hlen : (pre ++ fo).length + ('\x7b' :: t').length - 1 + 1 - (pre ++ fo).length =
      ('\x7b' :: t').length := by
    simp
    omega
  rw [hlen, List.take_left]

/-- C6: for every JSON object text (first character `{`, last character
`}`) the sanitize-and-parse operation yields the same structured result on
the bare text as on the same text wrapped in a ```` ```json ```` fenced
block with leading and trailing commentary, for any commentary whose
leading line starts with a printable non-backtick character and which does
not itself contain braces on the find/rfind-relevant side. -/
theorem C6_cleanup_fence_invariant (loads : List Char → Except (List Char) PyVal)
    (t pre post : List Char)
    (ht : t.head? = some '\x7b') (ht2 : t.getLast? = some '\x7d')
    (cpre : Char) (pre' : List Char) (hpre : pre = cpre :: pre')
    (hpw : isPyWs cpre = false) (hpt : cpre ≠ '\x60')
    (dpost : Char) (hdp : post.getLast? = some dpost) (hdw : isPyWs dpost = false)
    (hb1 : '\x7b' ∉ pre) (hb2 : '\x7d' ∉ post) :
    clean_and_parse_json loads
      (pre ++ ("\x60\x60\x60json\n").toList ++ t ++ ('\n' :: ticks) ++ post) =
      clean_and_parse_json loads t := by
  rw [clean_and_parse_json, clean_and_parse_json,
    cleanRaw_unwrap t pre post ht ht2 cpre pre' hpre hpw hpt dpost hdp hdw hb1 hb2,
    cleanRaw_id_of_object t ht ht2]

/-- C6 witness: the theorem applied to the object
`{"overall_status": "pass"}` wrapped in a fenced block between the
commentary lines `Here is the verdict:` and `Done.`. -/
theorem C6_cleanup_fence_invariant_witness :
    clean_and_parse_json (fun s => Except.ok (PyVal.str s))
      (("Here is the verdict:\n").toList ++ ("\x60\x60\x60json\n").toList ++
        ("\x7b\"overall_status\": \"pass\"\x7d").toList ++ ('\n' :: ticks) ++
        ("\nDone.").toList) =
      clean_and_parse_json (fun s => Except.ok (PyVal.str s))
        (("\x7b\"overall_status\": \"pass\"\x7d").toList) :=
  C6_cleanup_fence_invariant (fun s => Except.ok (PyVal.str s))
    (("\x7b\"overall_status\": \"pass\"\x7d").toList)
    (("Here is the verdict:\n").toList) (("\nDone.").toList)
    (by decide) (by decide) 'H' (("ere is the verdict:\n").toList) (by decide)
    (by decide) (by decide) '.' (by decide) (by decide) (by decide) (by decide)

/-! ## Claims C8 and C10 -/

theorem wsOnly_false_of_colZero (l : List Char) (h : colZeroLine l = true) :
    wsOnly l = false := by
  cases l with
  | nil => rfl
  | cons c t =>
    rw [colZeroLine] at h
    have hc : isTabSpace c = false := by simpa using h
    rw [wsOnly]
    simp [List.all_cons, hc]

theorem psi_id_of_colZero (m : List Char) (hm : ∀ c ∈ m, isTabSpace c = true)
    (l : List Char) (h : colZeroLine l = true) :
    stripLine m (if wsOnly l then [] else l) = l := by
  rw [wsOnly_false_of_colZero l h]
  simp only [Bool.false_eq_true, if_false]
  exact stripLine_id_col0 m l hm h

theorem sp8_tabspace : ∀ c ∈ sp8, isTabSpace c = true := by decide

theorem diag_embed_line (m : List Char) (hm : m <+: sp8) (E1 : List Char)
    (hE1 : colZeroLine E1 = true) :
    ∃ u, stripLine m (if wsOnly (sp8 ++ E1) then [] else sp8 ++ E1) = u ++ E1 ∧
      ∀ c ∈ u, isTabSpace c = true := by
  have hmts : ∀ c ∈ m, isTabSpace c = true := fun c hc => sp8_tabspace c (hm.subset hc)
  cases E1 with
  | nil =>
    have hws : wsOnly (sp8 ++ ([] : List Char)) = true := by decide
    rw [hws]
    simp only [if_true]
    exact ⟨[], by simpa using stripLine_id_col0 m [] hmts rfl, by simp⟩
  | cons c t =>
    have hc : isTabSpace c = false := by
      rw [colZeroLine] at hE1; simpa using hE1
    have hws : wsOnly (sp8 ++ c :: t) = false := by
      rw [wsOnly]
      simp [List.all_append, List.all_cons, hc]
    rw [hws]
    simp only [Bool.false_eq_true, if_false]
    obtain ⟨sp2, hsl, hsub⟩ := stripLine_keep_suffix m sp8 (c :: t) hm
    exact ⟨sp2, hsl, fun x hx => sp8_tabspace x (hsub x hx)⟩

theorem gitDiagnosticMsg_contains (E S : List Char)
    (hE : colZeroLines E = true) (hS : colZeroLines S = true) :
    pyStrip E <:+: gitDiagnosticMsg E S ∧ pyStrip S <:+: gitDiagnosticMsg E S := by
  obtain ⟨E1, Et, hEsplit⟩ := List.exists_cons_of_ne_nil (splitNl_ne_nil E)
  obtain ⟨S1, St, hSsplit⟩ := List.exists_cons_of_ne_nil (splitNl_ne_nil S)
  have hEall := List.all_eq_true.mp hE
  have hSall := List.all_eq_true.mp hS
  have hE1 : colZeroLine E1 = true := hEall E1 (hEsplit ▸ List.mem_cons_self _ _)
  have hEt : ∀ l ∈ Et, colZeroLine l = true := fun l hl =>
    hEall l (hEsplit ▸ List.mem_cons_of_mem _ hl)
  have hS1 : colZeroLine S1 = true := hSall S1 (hSsplit ▸ List.mem_cons_self _ _)
  have hSt : ∀ l ∈ St, colZeroLine l = true := fun l hl =>
    hSall l (hSsplit ▸ List.mem_cons_of_mem _ hl)
  -- the raw f-string, re-associated around the interpolations
  have hd : diagPart1 ++ E ++ diagPart2 ++ S ++ diagPart3 =
      '\n' :: ((sp8 ++ ("No se pudo obtener un diff útil para revisar.").toList) ++
        '\n' :: ('\n' :: ((sp8 ++ ("Último error de git:").toList) ++
          '\n' :: ((sp8 ++ E) ++
            '\n' :: ('\n' :: ((sp8 ++ ("Salida de \x27git status --short --branch\x27:").toList) ++
              '\n' :: ((sp8 ++ S) ++ '\n' :: sp8))))))) := by
    rw [show diagPart1 = '\n' ::
        ((sp8 ++ ("No se pudo obtener un diff útil para revisar.").toList) ++
          '\n' :: ('\n' :: ((sp8 ++ ("Último error de git:").toList) ++ '\n' :: sp8)))
        from by decide,
      show diagPart2 = '\n' :: ('\n' ::
        ((sp8 ++ ("Salida de \x27git status --short --branch\x27:").toList) ++ '\n' :: sp8))
        from by decide,
      show diagPart3 = '\n' :: sp8 from by decide]
    simp [List.append_assoc]
  -- its lines
  have hsplit : splitNl (diagPart1 ++ E ++ diagPart2 ++ S ++ diagPart3) =
      [] :: ([sp8 ++ ("No se pudo obtener un diff útil para revisar.").toList] ++
        ([] :: ([sp8 ++ ("Último error de git:").toList] ++
          (((sp8 ++ E1) :: Et) ++
            ([] :: ([sp8 ++ ("Salida de \x27git status --short --branch\x27:").toList] ++
              (((sp8 ++ S1) :: St) ++ [sp8]))))))) := by
    rw [hd, splitNl_cons_nl, splitNl_append, splitNl_noNl _ (by decide), splitNl_cons_nl,
      splitNl_append, splitNl_noNl _ (by decide),
      splitNl_append, splitNl_prepend sp8 E (by decide) E1 Et hEsplit,
      splitNl_cons_nl, splitNl_append, splitNl_noNl _ (by decide),
      splitNl_append, splitNl_prepend sp8 S (by decide) S1 St hSsplit,
      splitNl_noNl sp8 (by decide)]
  -- the margin is a prefix of the eight-space indent
  have hL1mem : (sp8 ++ ("No se pudo obtener un diff útil para revisar.").toList) ∈
      zapWsLines (splitNl (diagPart1 ++ E ++ diagPart2 ++ S ++ diagPart3)) := by
    refine mem_zap_of_not_wsOnly _ _ ?_ (by decide)
    rw [hsplit]
    exact List.mem_cons_of_mem _ (List.mem_append_left _ (List.mem_cons_self _ _))
  have hm8 : marginOf (zapWsLines (splitNl (diagPart1 ++ E ++ diagPart2 ++ S ++ diagPart3)))
      <+: sp8 := by
    have h := marginOf_prefix _ _ hL1mem (by decide)
    rwa [show indentOf (sp8 ++ ("No se pudo obtener un diff útil para revisar.").toList) = sp8
      from by decide] at h
  have hmts : ∀ c ∈ marginOf (zapWsLines (splitNl (diagPart1 ++ E ++ diagPart2 ++ S ++
      diagPart3))), isTabSpace c = true := fun c hc => sp8_tabspace c (hm8.subset hc)
  set m := marginOf (zapWsLines (splitNl (diagPart1 ++ E ++ diagPart2 ++ S ++ diagPart3)))
    with hmdef
  -- dedent as one pointwise map over the lines
  have hmap : dedent (diagPart1 ++ E ++ diagPart2 ++ S ++ diagPart3) =
      joinNl ((splitNl (diagPart1 ++ E ++ diagPart2 ++ S ++ diagPart3)).map
        (fun l => stripLine m (if wsOnly l then [] else l))) := by
    rw [dedent_eq_map, hmdef, zapWsLines, List.map_map]
    rfl
  -- the per-line transforms
  obtain ⟨u1, hpsi1, hu1⟩ := diag_embed_line m hm8
    (("No se pudo obtener un diff útil para revisar.").toList) (by decide)
  obtain ⟨u3, hpsi3, hu3⟩ := diag_embed_line m hm8
    (("Último error de git:").toList) (by decide)
  obtain ⟨u7, hpsi7, hu7⟩ := diag_embed_line m hm8
    (("Salida de \x27git status --short --branch\x27:").toList) (by decide)
  obtain ⟨uE, hpsiE, huE⟩ := diag_embed_line m hm8 E1 hE1
  obtain ⟨uS, hpsiS, huS⟩ := diag_embed_line m hm8 S1 hS1
  have hpsinil : stripLine m (if wsOnly [] then [] else []) = [] := by
    rw [show wsOnly ([] : List Char) = false from rfl]
    simp only [Bool.false_eq_true, if_false]
    exact stripLine_id_col0 m [] hmts rfl
  have hpsisp8 : stripLine m (if wsOnly sp8 then [] else sp8) = [] := by
    rw [show wsOnly sp8 = true from by decide]
    simp only [if_true]
    exact stripLine_id_col0 m [] hmts rfl
  have hmapEt : Et.map (fun l => stripLine m (if wsOnly l then [] else l)) = Et :=
    map_eq_self_of _ _ (fun l hl => psi_id_of_colZero m hmts l (hEt l hl))
  have hmapSt : St.map (fun l => stripLine m (if wsOnly l then [] else l)) = St :=
    map_eq_self_of _ _ (fun l hl => psi_id_of_colZero m hmts l (hSt l hl))
  -- the mapped line list
  have hD : (splitNl (diagPart1 ++ E ++ diagPart2 ++ S ++ diagPart3)).map
      (fun l => stripLine m (if wsOnly l then [] else l)) =
      [] :: ((u1 ++ ("No se pudo obtener un diff útil para revisar.").toList) ::
        ([] :: ((u3 ++ ("Último error de git:").toList) ::
          (((uE ++ E1) :: Et) ++
            ([] :: ((u7 ++ ("Salida de \x27git status --short --branch\x27:").toList) ::
              (((uS ++ S1) :: St) ++ [[]]))))))) := by
    rw [hsplit]
    simp only [List.map_append, List.map_cons, List.map_nil]
    rw [hpsinil, hpsi1, hpsi3, hpsiE, hpsi7, hpsiS, hmapEt, hmapSt, hpsisp8]
    simp
  -- join the lines back together
  have hQ2 : joinNl ((uS ++ S1) :: (St ++ [[]])) = uS ++ (S ++ ['\n']) := by
    rw [joinNl_cons_append, show S1 :: (St ++ [[]]) = (S1 :: St) ++ [[]] from rfl,
      joinNl_append _ _ (by simp) (by simp), ← hSsplit, joinNl_splitNl]
    simp [joinNl]
  have hQ : joinNl ([] :: ((u7 ++ ("Salida de \x27git status --short --branch\x27:").toList) ::
      ((uS ++ S1) :: (St ++ [[]])))) =
      '\n' :: ((u7 ++ ("Salida de \x27git status --short --branch\x27:").toList) ++
        '\n' :: (uS ++ (S ++ ['\n']))) := by
    rw [joinNl_cons_cons, joinNl_cons_cons, hQ2]
    simp
  have hE2 : joinNl ((uE ++ E1) :: (Et ++
      ([] :: ((u7 ++ ("Salida de \x27git status --short --branch\x27:").toList) ::
        ((uS ++ S1) :: (St ++ [[]])))))) =
      uE ++ (E ++ '\n' :: ('\n' :: ((u7 ++
        ("Salida de \x27git status --short --branch\x27:").toList) ++
        '\n' :: (uS ++ (S ++ ['\n']))))) := by
    rw [joinNl_cons_append, show E1 :: (Et ++ ([] :: ((u7 ++
        ("Salida de \x27git status --short --branch\x27:").toList) ::
        ((uS ++ S1) :: (St ++ [[]]))))) = (E1 :: Et) ++
        ([] :: ((u7 ++ ("Salida de \x27git status --short --branch\x27:").toList) ::
        ((uS ++ S1) :: (St ++ [[]])))) from rfl,
      joinNl_append _ _ (by simp) (by simp), ← hEsplit, joinNl_splitNl, hQ]
  have hJ : joinNl ((splitNl (diagPart1 ++ E ++ diagPart2 ++ S ++ diagPart3)).map
      (fun l => stripLine m (if wsOnly l then [] else l))) =
      ('\n' :: ((u1 ++ ("No se pudo obtener un diff útil para revisar.").toList) ++
        '\n' :: ('\n' :: ((u3 ++ ("Último error de git:").toList) ++ '\n' :: uE)))) ++ E ++
      ('\n' :: ('\n' :: ((u7 ++ ("Salida de \x27git status --short --branch\x27:").toList) ++
        '\n' :: (uS ++ (S ++ ['\n']))))) := by
    rw [hD, show (((uE ++ E1) :: Et) ++
        ([] :: ((u7 ++ ("Salida de \x27git status --short --branch\x27:").toList) ::
          (((uS ++ S1) :: St) ++ [[]])))) = ((uE ++ E1) :: (Et ++
        ([] :: ((u7 ++ ("Salida de \x27git status --short --branch\x27:").toList) ::
          ((uS ++ S1) :: (St ++ [[]])))))) from by simp,
      joinNl_cons_cons, joinNl_cons_cons, joinNl_cons_cons, joinNl_cons_cons, hE2]
    simp [List.append_assoc]
  constructor
  · have hu : ∃ c ∈ ('\n' :: ((u1 ++
        ("No se pudo obtener un diff útil para revisar.").toList) ++
        '\n' :: ('\n' :: ((u3 ++ ("Último error de git:").toList) ++ '\n' :: uE)))),
        isPyWs c = false := by
      refine ⟨'N', ?_, by decide⟩
      exact List.mem_cons_of_mem _ (List.mem_append_left _
        (List.mem_append_right _ (by decide)))
    have hinf := pyStrip_infix_of _ E
      ('\n' :: ('\n' :: ((u7 ++ ("Salida de \x27git status --short --branch\x27:").toList) ++
        '\n' :: (uS ++ (S ++ ['\n']))))) hu
    rw [gitDiagnosticMsg, hmap, hJ]
    exact hinf
  · have hJ2 : joinNl ((splitNl (diagPart1 ++ E ++ diagPart2 ++ S ++ diagPart3)).map
        (fun l => stripLine m (if wsOnly l then [] else l))) =
        (('\n' :: ((u1 ++ ("No se pudo obtener un diff útil para revisar.").toList) ++
          '\n' :: ('\n' :: ((u3 ++ ("Último error de git:").toList) ++ '\n' :: uE)))) ++ E ++
          ('\n' :: ('\n' :: ((u7 ++
            ("Salida de \x27git status --short --branch\x27:").toList) ++ '\n' :: uS)))) ++
        S ++ ['\n'] := by
      rw [hJ]
      simp [List.append_assoc]
    have hv : ∃ c ∈ (('\n' :: ((u1 ++
        ("No se pudo obtener un diff útil para revisar.").toList) ++
        '\n' :: ('\n' :: ((u3 ++ ("Último error de git:").toList) ++ '\n' :: uE)))) ++ E ++
        ('\n' :: ('\n' :: ((u7 ++
          ("Salida de \x27git status --short --branch\x27:").toList) ++ '\n' :: uS)))),
        isPyWs c = false := by
      refine ⟨'S', ?_, by decide⟩
      refine List.mem_append_right _ ?_
      exact List.mem_cons_of_mem _ (List.mem_cons_of_mem _
        (List.mem_append_left _ (List.mem_append_right _ (by decide))))
    have hinf := pyStrip_infix_of _ S ['\n'] hv
    rw [gitDiagnosticMsg, hmap, hJ2]
    exact hinf

theorem gitDiagnosticMsg_has_nonws (E S : List Char) :
    ∃ c ∈ gitDiagnosticMsg E S, isPyWs c = false := by
  have hd0 : diagPart1 = '\n' ::
      ((sp8 ++ ("No se pudo obtener un diff útil para revisar.").toList) ++
        '\n' :: (diagPart1.drop 55)) := by decide
  have hd : diagPart1 ++ E ++ diagPart2 ++ S ++ diagPart3 =
      '\n' :: ((sp8 ++ ("No se pudo obtener un diff útil para revisar.").toList) ++
        '\n' :: (diagPart1.drop 55 ++ (E ++ diagPart2 ++ S ++ diagPart3))) := by
    conv_lhs => rw [hd0]
    simp [List.append_assoc]
  have hmem : (sp8 ++ ("No se pudo obtener un diff útil para revisar.").toList) ∈
      splitNl (diagPart1 ++ E ++ diagPart2 ++ S ++ diagPart3) := by
    rw [hd, splitNl_cons_nl, splitNl_append, splitNl_noNl _ (by decide)]
    exact List.mem_cons_of_mem _ (List.mem_append_left _ (List.mem_cons_self _ _))
  have hzmem : (sp8 ++ ("No se pudo obtener un diff útil para revisar.").toList) ∈
      zapWsLines (splitNl (diagPart1 ++ E ++ diagPart2 ++ S ++ diagPart3)) :=
    mem_zap_of_not_wsOnly _ _ hmem (by decide)
  have hm8 : marginOf (zapWsLines (splitNl (diagPart1 ++ E ++ diagPart2 ++ S ++ diagPart3)))
      <+: sp8 := by
    have h := marginOf_prefix _ _ hzmem (by decide)
    rwa [show indentOf (sp8 ++ ("No se pudo obtener un diff útil para revisar.").toList) = sp8
      from by decide] at h
  obtain ⟨u1, hsl, _⟩ := stripLine_keep_suffix
    (marginOf (zapWsLines (splitNl (diagPart1 ++ E ++ diagPart2 ++ S ++ diagPart3)))) sp8
    (("No se pudo obtener un diff útil para revisar.").toList) hm8
  have hmapmem : u1 ++ ("No se pudo obtener un diff útil para revisar.").toList ∈
      (zapWsLines (splitNl (diagPart1 ++ E ++ diagPart2 ++ S ++ diagPart3))).map
        (stripLine (marginOf (zapWsLines (splitNl (diagPart1 ++ E ++ diagPart2 ++ S ++
          diagPart3))))) := by
    rw [← hsl]
    exact List.mem_map_of_mem _ hzmem
  have hN : 'N' ∈ dedent (diagPart1 ++ E ++ diagPart2 ++ S ++ diagPart3) := by
    rw [dedent_eq_map]
    exact mem_joinNl 'N' _ _ (List.mem_append_right _ (by decide)) hmapmem
  exact ⟨'N', mem_pyStrip_of_nonws _ 'N' hN (by decide), by decide⟩

/-- C10: for every outcome of the underlying git commands, the diff
provider returns a string containing at least one non-whitespace
character; in particular, even when both the commit diff and the
working-tree diff are empty, the diagnostic text is non-empty. -/
theorem C10_diff_provider_nonempty (g : GitEnv) :
    ∃ c ∈ get_git_diff g, isPyWs c = false := by
  rw [get_git_diff]
  split
  · rename_i h
    obtain ⟨c, hc, hw⟩ := exists_nonws_of_pyStrip_ne_nil _ h.2.2
    exact ⟨c, hc, hw⟩
  · split
    · exact ⟨'#', List.mem_append_left _ (by decide), by decide⟩
    · exact gitDiagnosticMsg_has_nonws _ _

/-- C8 counterexample: the claim says the step-3 diagnostic string
contains the last tool error verbatim.  At the concrete git outcome where
`HEAD~1` does not resolve, the working-tree diff is empty with stderr
`"  a\n  b"`, and `git status` prints nothing, the returned diagnostic
does NOT contain that error text: the surrounding `textwrap.dedent`
computes a two-space margin from the error's indented lines and
re-indents them, so the claim as stated is false. -/
theorem C8_counterexample :
    ¬ commitDiffAvailable ⟨⟨1, [], []⟩, ⟨1, [], []⟩, ⟨0, [], ("  a\n  b").toList⟩, ⟨0, [], []⟩⟩ ∧
    ¬ workingDiffAvailable ⟨⟨1, [], []⟩, ⟨1, [], []⟩, ⟨0, [], ("  a\n  b").toList⟩, ⟨0, [], []⟩⟩ ∧
    pyOr (CmdResult.err ⟨0, [], ("  a\n  b").toList⟩) (CmdResult.err ⟨0, [], []⟩) =
      ("  a\n  b").toList ∧
    ¬ (("  a\n  b").toList <:+:
      get_git_diff ⟨⟨1, [], []⟩, ⟨1, [], []⟩, ⟨0, [], ("  a\n  b").toList⟩, ⟨0, [], []⟩⟩) := by
  decide

/-- C8 (amended): the diff provider follows the ordered fallback chain
(it is a total function, so it never raises): the commit-to-commit diff
is returned when the prior reference resolves and that diff command
succeeds with non-blank output; otherwise the working-tree diff, if its
command succeeds with non-blank output, prefixed with the
fallback-header note; otherwise the dedented diagnostic message, which
contains the whitespace-stripped last tool error (`err or status_err`)
and the whitespace-stripped status summary, provided each of their lines
is empty or starts at column zero with a non-whitespace character (the
message's dedent re-indents other texts, as the counterexample shows). -/
theorem C8_fallback_chain_amended (g : GitEnv)
    (hE : colZeroLines (pyOr g.diffWorking.err g.statusCmd.err) = true)
    (hS : colZeroLines g.statusCmd.out = true) :
    (commitDiffAvailable g → get_git_diff g = g.diffHead1.out) ∧
    (¬ commitDiffAvailable g → workingDiffAvailable g →
      get_git_diff g = fallbackHeader ++ g.diffWorking.out) ∧
    (¬ commitDiffAvailable g → ¬ workingDiffAvailable g →
      get_git_diff g =
        gitDiagnosticMsg (pyOr g.diffWorking.err g.statusCmd.err) g.statusCmd.out ∧
      pyStrip (pyOr g.diffWorking.err g.statusCmd.err) <:+: get_git_diff g ∧
      pyStrip g.statusCmd.out <:+: get_git_diff g) := by
  refine ⟨?_, ?_, ?_⟩
  · intro hc
    simp only [commitDiffAvailable] at hc
    rw [get_git_diff, if_pos hc]
  · intro hc1 hc2
    simp only [commitDiffAvailable] at hc1
    simp only [workingDiffAvailable] at hc2
    rw [get_git_diff, if_neg hc1, if_pos hc2]
  · intro hc1 hc2
    simp only [commitDiffAvailable] at hc1
    simp only [workingDiffAvailable] at hc2
    have hg : get_git_diff g = gitDiagnosticMsg (pyOr g.diffWorking.err g.statusCmd.err)
        g.statusCmd.out := by
      rw [get_git_diff, if_neg hc1, if_neg hc2]
    obtain ⟨h1, h2⟩ := gitDiagnosticMsg_contains _ _ hE hS
    exact ⟨hg, hg ▸ h1, hg ▸ h2⟩


/-- C8 witness: the amended theorem applied to a concrete git outcome
where nothing is available (rev-parse fails, the working-tree diff
fails with `fatal: not a git repository`, and the status summary is
`## main` / `?? f.py`), taking the diagnostic branch. -/
theorem C8_fallback_chain_amended_witness :
    pyStrip (pyOr (CmdResult.err ⟨1, [], ("fatal: not a git repository").toList⟩)
        (CmdResult.err ⟨0, ("## main\n?? f.py\n").toList, []⟩)) <:+:
      get_git_diff ⟨⟨1, [], []⟩, ⟨1, [], []⟩, ⟨1, [], ("fatal: not a git repository").toList⟩,
        ⟨0, ("## main\n?? f.py\n").toList, []⟩⟩ ∧
    pyStrip (CmdResult.out ⟨0, ("## main\n?? f.py\n").toList, []⟩) <:+:
      get_git_diff ⟨⟨1, [], []⟩, ⟨1, [], []⟩, ⟨1, [], ("fatal: not a git repository").toList⟩,
        ⟨0, ("## main\n?? f.py\n").toList, []⟩⟩ :=
  ((C8_fallback_chain_amended
    ⟨⟨1, [], []⟩, ⟨1, [], []⟩, ⟨1, [], ("fatal: not a git repository").toList⟩,
      ⟨0, ("## main\n?? f.py\n").toList, []⟩⟩
    (by decide) (by decide)).2.2 (by decide) (by decide)).2
